import Mathlib

/-!
# cf_benchmark: the Go benchmark harness `go_benchmarks.go`

A shallow embedding of `makeText`, `BenchmarkMatch`, the registry `goBenchmarks`,
the duration scheduler `bench` and the driver `main`, followed by the properties
proved about them.

Conventions of the embedding
* Go `int`, `uint` and `time.Duration` are 64 bits wide; `uint32` is 32 bits
  wide.  Values are mathematical integers, wrapped explicitly where Go wraps.
* A byte is a natural number below 256; a byte slice is a list of them.
* The clock, the goroutine scheduler, the `regexp` package and the formatting
  of floating point numbers are not part of the program: they enter as
  parameters.
-/

namespace GoBenchmarks

/-! ## Machine arithmetic -/

/-- Value of a Go `int64` (also `int`, `time.Duration`) after wrap-around. -/
def toInt64 (x : Int) : Int := (x + 2 ^ 63) % 2 ^ 64 - 2 ^ 63

/-- Largest `time.Duration`. -/
def maxDuration : Int := 2 ^ 63 - 1

/-- Smallest `time.Duration`. -/
def minDuration : Int := -(2 ^ 63)

/-! ## makeText -/

/-- One round of the loop body of `makeText` on the `uint32` register `x`:
`x += x; x ^= 1; if int32(x) < 0 { x ^= 0x88888eef }`. -/
def nextX (x : Nat) : Nat :=
  let x1 := (x + x) % 2 ^ 32
  let x2 := x1 ^^^ 1
  if 2 ^ 31 ≤ x2 then x2 ^^^ 0x88888eef else x2

/-- The byte stored for the register value `x`:
`'\n'` when `x%31 == 0`, else `byte(x%(0x7E+1-0x20) + 0x20)`. -/
def textByte (x : Nat) : Nat :=
  if x % 31 = 0 then 10 else (x % (0x7E + 1 - 0x20) + 0x20) % 256

/-- The loop `for i := range text` of `makeText` with `n` rounds to go, the
register value `x` and the bytes stored so far in `acc`, the last one first. -/
def fillLoop : Nat → Nat → List Nat → List Nat
  | 0, _, acc => acc.reverse
  | n + 1, x, acc => fillLoop n (nextX x) (textByte (nextX x) :: acc)

/-- The `n` bytes the loop of `makeText` stores, starting from the register
value `x`. -/
def fillText (n x : Nat) : List Nat := fillLoop n x []

/-- The function `makeText(n)`, with the package variable `text` passed in and
out: the result is the returned slice and the new value of `text`.  `none` is
the run-time panic of `text[:n]` for a negative `n`. -/
def makeText (text : List Nat) (n : Int) : Option (List Nat × List Nat) :=
  if (text.length : Int) ≥ n then
    if n < 0 then none else some (text.take n.toNat, text)
  else
    some (fillText n.toNat (2 ^ 32 - 1), fillText n.toNat (2 ^ 32 - 1))

/-- A sequence of calls `makeText(n_1), ..., makeText(n_k)`, threading the
package variable `text`; the result lists what each call returned. -/
def makeTextCalls : List Nat → List Int → Option (List (List Nat))
  | _, [] => some []
  | text, n :: ns =>
    match makeText text n with
    | none => none
    | some (r, text') =>
      match makeTextCalls text' ns with
      | none => none
      | some rs => some (r :: rs)

/-! ### The stream in the words of the specification -/

/-- The recurrence as the specification words it: `x := 2x mod 2^32`,
`x := x xor 1`, and `x := x xor 0x88888eef` when bit 31 of `x` is set. -/
def specStep (x : Nat) : Nat :=
  let a := 2 * x % 2 ^ 32
  let b := Nat.xor a 1
  if b / 2 ^ 31 % 2 = 1 then Nat.xor b 0x88888eef else b

/-- The byte emitted for a register value: newline when `x mod 31 = 0`, else
`x mod 95 + 32`. -/
def specEmit (x : Nat) : Nat := if x % 31 = 0 then 10 else x % 95 + 32

/-- Register value after `i` rounds from the seed `0xFFFFFFFF`. -/
def specState : Nat → Nat
  | 0 => 0xFFFFFFFF
  | i + 1 => specStep (specState i)

/-- The first `n` bytes of the fixed stream. -/
def specStream (n : Nat) : List Nat :=
  (List.range n).map (fun i => specEmit (specState (i + 1)))


/-! ## The worker goroutine and `bench` -/

/-- The threshold `time.Duration(*duration)*time.Second` of the loop condition,
for the value `duration` of the flag `-t` (a `uint`): the conversion and the
product by `time.Second` (1000000000) both wrap to 64 bits. -/
def benchDuration (duration : Nat) : Int :=
  toInt64 (toInt64 duration * 1000000000)

/-- `t.Sub(u)` on two readings of the monotonic clock, in nanoseconds: the
difference, saturated to the range of `time.Duration`. -/
def timeSub (t u : Int) : Int :=
  if t - u > maxDuration then maxDuration
  else if t - u < minDuration then minDuration
  else t - u

/-- The operation `b` a setup call returns, as far as the harness can see it:
`b k` tells whether the `k`-th call of `b()` (counted from 0) ends the process
through `log.Fatalln` (`true`) or returns (`false`). -/
abbrev Operation := Nat → Bool

/-- A setup function `benchInit`.  `init i` is the call `init()` made by the
`i`-th goroutine of a `bench` invocation: `none` when the call panics, else
the operation it returns. -/
abbrev BenchInit := Nat → Option Operation

/-- How one goroutine of `bench` ends. -/
inductive WorkerExit
  /-- It left the loop at its reading number `reads` (counted from 0) and
  executed `sum <- total`. -/
  | sent (total : Int) (reads : Nat)
  /-- A call of the operation ran into `log.Fatalln`. -/
  | fatal
  /-- The call `init()` panicked. -/
  | panic
  /-- The loop was still running when the fuel of the model ran out. -/
  | running
  deriving DecidableEq, Repr

/-- The loop `for time.Now().Sub(start) < D { b(); total += 1 }` of a
goroutine.  `clock k` is the `k`-th reading of `time.Now()` in the loop
condition, `k` the number of readings made so far, `total` the local counter.
The first argument is the fuel. -/
def workerLoop (b : Operation) (clock : Nat → Int) (start D : Int) :
    Nat → Nat → Int → WorkerExit
  | 0, _, _ => WorkerExit.running
  | fuel + 1, k, total =>
    if timeSub (clock k) start < D then
      if b k then WorkerExit.fatal
      else workerLoop b clock start D fuel (k + 1) (toInt64 (total + 1))
    else WorkerExit.sent total k

/-- The body of the goroutine number `i`: `b := init(); total := 0;` the loop;
`sum <- total`. -/
def worker (init : BenchInit) (i : Nat) (clock : Nat → Int) (start D : Int)
    (fuel : Nat) : WorkerExit :=
  match init i with
  | none => WorkerExit.panic
  | some b => workerLoop b clock start D fuel 0 0

/-- What the clock and the goroutine scheduler contribute to one invocation of
`bench`. -/
structure Sched where
  /-- The reading `start := time.Now()`. -/
  start : Int
  /-- The reading `clock i k`: the `k`-th `time.Now()` of goroutine `i`. -/
  clock : Nat → Nat → Int
  /-- The goroutines in the order in which they execute `sum <- total`. -/
  order : List Nat
  /-- Bound on the loop rounds of a goroutine followed by the model. -/
  fuel : Nat

/-- Result of an invocation of `bench`. -/
inductive Outcome
  /-- The invocation returned `total`. -/
  | ret (total : Int)
  /-- The process ended in `log.Fatalln` (exit status 1). -/
  | fatal
  /-- The process ended in a panic. -/
  | panic
  /-- The invocation had not returned when the fuel ran out. -/
  | running
  deriving DecidableEq, Repr

/-- The count a goroutine put on the channel (0 for one that sent nothing). -/
def WorkerExit.count : WorkerExit → Int
  | WorkerExit.sent total _ => total
  | _ => 0

/-- The number of the reading at which the goroutine left its loop, which is
also the number of operations it executed (0 for one that sent nothing). -/
def WorkerExit.reads : WorkerExit → Nat
  | WorkerExit.sent _ reads => reads
  | _ => 0

/-- Whether the goroutine put its count on the channel. -/
def WorkerExit.isSent : WorkerExit → Bool
  | WorkerExit.sent _ _ => true
  | _ => false

/-- The final loop of `bench`: `total := 0; for t := range sum { total += t }`
over the contents of the channel. -/
def drain (sum : List Int) : Int :=
  sum.foldl (fun total t => toInt64 (total + t)) 0

/-- The exits of the `nThreads` goroutines spawned by `bench`. -/
def workerExits (duration : Nat) (w : Sched) (init : BenchInit) (nThreads : Nat) :
    List WorkerExit :=
  (List.range nThreads).map
    (fun i => worker init i (w.clock i) w.start (benchDuration duration) w.fuel)

/-- The function `bench(init, nThreads)`; `duration` is the flag `-t`.
A negative `nThreads` panics in `make(chan int, nThreads)`.  The process ends
as soon as one goroutine reaches `log.Fatalln` or panics (when both happen in
one invocation the model reports the former).  Otherwise `wg.Wait()` returns
once every goroutine has sent its count; the channel then holds the counts in
the order `w.order`, and they are summed. -/
def bench (duration : Nat) (w : Sched) (init : BenchInit) (nThreads : Int) : Outcome :=
  if nThreads < 0 then Outcome.panic
  else
    let exits := workerExits duration w init nThreads.toNat
    if exits.any (fun e => e = WorkerExit.fatal) then Outcome.fatal
    else if exits.any (fun e => e = WorkerExit.panic) then Outcome.panic
    else if exits.any (fun e => e = WorkerExit.running) then Outcome.running
    else Outcome.ret (drain (w.order.map (fun i => (exits.getD i WorkerExit.running).count)))

/-- An operation fails its self-check during the invocation `bench(init, nThreads)`:
some goroutine of the invocation reaches a call of its operation that takes
the `log.Fatalln` branch. -/
def operationFails (duration : Nat) (w : Sched) (init : BenchInit) (nThreads : Int) : Prop :=
  ∃ i, i < nThreads.toNat ∧
    worker init i (w.clock i) w.start (benchDuration duration) w.fuel = WorkerExit.fatal

/-- Readings of the clock in the timed model: the start timestamp is taken
first, the setup call then takes `setup` and the `j`-th operation `lat j`;
nothing else takes time. -/
def timedClock (start setup : Int) (lat : Nat → Int) : Nat → Int
  | 0 => start + setup
  | k + 1 => timedClock start setup lat k + lat k

/-- The schedule of the timed model, for the setup time `setup i` of
goroutine `i` and the latency `lat i j` of its `j`-th operation. -/
def timedSched (start : Int) (setup : Nat → Int) (lat : Nat → Nat → Int)
    (order : List Nat) (fuel : Nat) : Sched :=
  { start := start
    clock := fun i => timedClock start (setup i) (lat i)
    order := order
    fuel := fuel }

/-- For each goroutine of an invocation, the number of operations it executed. -/
def exitReads (duration : Nat) (w : Sched) (init : BenchInit) (nThreads : Nat) : List Nat :=
  (workerExits duration w init nThreads).map WorkerExit.reads

/-- Latencies of the operations executed in an invocation in which goroutine
`i` executed `ks[i]` operations of latencies `lat i 0, lat i 1, ...`. -/
def executedLatencies (lat : Nat → Nat → Int) (ks : List Nat) : List Int :=
  (List.range ks.length).flatMap (fun i => (List.range (ks.getD i 0)).map (lat i))

/-- Largest element of a list of latencies (0 for the empty list). -/
def maxLatency (l : List Int) : Int := l.foldr max 0

/-! ## The registry -/

/-- The package `regexp`, as far as the program uses it. -/
structure Regexp where
  /-- Whether `regexp.Compile` accepts the pattern. -/
  compiles : String → Bool
  /-- The call `r.Match(t)` for the compiled pattern and a byte slice. -/
  matchBytes : String → List Nat → Bool
  /-- The call `r.MatchString(s)` for the compiled pattern and a string. -/
  matchString : String → String → Bool

/-- What the program takes from its environment. -/
structure Env where
  /-- The package `regexp`. -/
  regexp : Regexp
  /-- The value returned by `runtime.GOMAXPROCS(0)`. -/
  gomaxprocs : Int
  /-- Whether `os.Create` and `pprof.StartCPUProfile` both succeed. -/
  profileStarts : String → Bool
  /-- Clock and scheduler of the `n`-th invocation of `bench`. -/
  sched : Nat → Sched
  /-- The text `fmt.Sprintf("%.2f", x)` for `x` the `float64` quotient of the
  integer by the listed divisors, taken one after the other. -/
  sprintf2f : Int → List Int → String
  /-- Length of `./corp/mt.txt` as read at start-up. -/
  lenTwain : Int
  /-- Length of `./corp/e.txt` as read at start-up. -/
  lenE : Int

/-- The command line flags `-cpuprofile`, `-c`, `-t`, `-r`. -/
structure Flags where
  cpuprofile : String
  nproc : Int
  duration : Nat
  run : String

/-- An entry of `goBenchmarks`. -/
structure Workload where
  name : String
  benc : BenchInit
  report : Int → String

def easyRE : String := "ABCDEFGHIJKLMNOPQRSTUVWXYZ$"
def easyREi : String := "(?i)ABCDEFGHIJklmnopqrstuvwxyz$"
def easyRE2 : String := "A[AB]B[BC]C[CD]D[DE]E[EF]F[FG]G[GH]H[HI]I[IJ]J$"
def mediumRE : String := "[XYZ]ABCDEFGHIJKLMNOPQRSTUVWXYZ$"
def hardRE : String := "[ -~]*ABCDEFGHIJKLMNOPQRSTUVWXYZ$"
def hardRE2 : String := "ABCD|CDEF|EFGH|GHIJ|IJKL|KLMN|MNOP|OPQR|QRST|STUV|UVWX|WXYZ"

/-- The function `BenchmarkMatch(re)`: `regexp.MustCompile(re)` panics on a
pattern that does not compile; the operation returned ends the process when
the pattern matches the text `makeText(1 << 18)`.  The text is taken from
`makeText` on the empty package variable: what `makeText` returns does not
depend on that variable (see the theorems on `makeTextCalls`). -/
def BenchmarkMatch (rx : Regexp) (re : String) : BenchInit := fun _ =>
  if rx.compiles re then
    match makeText [] (1 <<< 18 : Nat) with
    | some (t, _) => some (fun _ => rx.matchBytes re t)
    | none => none
  else none

/-- A setup function whose operation has no `log.Fatalln` branch. -/
def plainInit : BenchInit := fun _ => some (fun _ => false)

/-- The report closures of the form
`fmt.Sprintf("%.2f ops/s", float64(total)/float64(*duration))`. -/
def reportOps (env : Env) (duration : Nat) (total : Int) : String :=
  env.sprintf2f total [(duration : Int)] ++ " ops/s"

/-- The report closures of the form
`fmt.Sprintf("%.2f MiB/s", float64(total*size)/float64(1024*1024)/float64(*duration))`. -/
def reportMiB (env : Env) (duration : Nat) (size : Int) (total : Int) : String :=
  env.sprintf2f (toInt64 (total * size)) [1024 * 1024, (duration : Int)] ++ " MiB/s"

/-- The table `goBenchmarks`.  The operations of the entries that do not go
through `BenchmarkMatch` have no `log.Fatalln` branch.  400000 is
`len(benchEscapeData)` and 580000 is `len(html.EscapeString(benchEscapeData))`. -/
def goBenchmarks (env : Env) (duration : Nat) : List Workload :=
  [ ⟨"regexp.Match easy", BenchmarkMatch env.regexp easyRE, reportOps env duration⟩,
    ⟨"regexp.Match easy (i)", BenchmarkMatch env.regexp easyREi, reportOps env duration⟩,
    ⟨"regexp.Match easy2", BenchmarkMatch env.regexp easyRE2, reportOps env duration⟩,
    ⟨"regexp.Match medium", BenchmarkMatch env.regexp mediumRE, reportOps env duration⟩,
    ⟨"regexp.Match hard", BenchmarkMatch env.regexp hardRE, reportOps env duration⟩,
    ⟨"regexp.Match hard2", BenchmarkMatch env.regexp hardRE2, reportOps env duration⟩,
    ⟨"ECDSA-P256 Sign", plainInit, reportOps env duration⟩,
    ⟨"ECDSA-P256 Verify", plainInit, reportOps env duration⟩,
    ⟨"RSA2048 Sign", plainInit, reportOps env duration⟩,
    ⟨"RSA2048 3-prime Sign", plainInit, reportOps env duration⟩,
    ⟨"AES-128-GCM Enc", plainInit, reportMiB env duration 8192⟩,
    ⟨"ChaCha20-Poly1305 Enc", plainInit, reportMiB env duration 8192⟩,
    ⟨"html.EscapeString", plainInit, reportMiB env duration 400000⟩,
    ⟨"html.UnescapeString", plainInit, reportMiB env duration 580000⟩,
    ⟨"compress/gzip compression Twain, -8", plainInit, reportMiB env duration env.lenTwain⟩,
    ⟨"compress/gzip decompression Twain, -d", plainInit, reportMiB env duration env.lenTwain⟩,
    ⟨"compress/gzip compression digits, -8", plainInit, reportMiB env duration env.lenE⟩,
    ⟨"compress/gzip decompression digits", plainInit, reportMiB env duration env.lenE⟩ ]

/-! ## main -/

/-- What `main` does that the claims observe. -/
inductive Event
  /-- A call `bench(init, nThreads)` and how it ended. -/
  | bench (init : BenchInit) (nThreads : Int) (outcome : Outcome)
  /-- A call `fmt.Printf("%s,%s,%s\n", name, single, multi)`. -/
  | printf (name single multi : String)

/-- How the process ends. -/
inductive Status
  /-- The function `main` returned. -/
  | ok
  /-- The process ended in `log.Fatal` or `log.Fatalln` (exit status 1). -/
  | fatal
  /-- The process ended in a panic. -/
  | panic
  /-- The process was still running when the fuel of the model ran out. -/
  | running
  deriving DecidableEq, Repr

/-- A run of the program: the events in order and the way it ended. -/
structure Run where
  events : List Event
  status : Status

/-- The status of the process after an invocation of `bench`. -/
def Outcome.status : Outcome → Status
  | Outcome.ret _ => Status.ok
  | Outcome.fatal => Status.fatal
  | Outcome.panic => Status.panic
  | Outcome.running => Status.running

/-- The text written by `fmt.Printf("%s,%s,%s\n", name, single, multi)`. -/
def printLine (name single multi : String) : String :=
  name ++ "," ++ single ++ "," ++ multi ++ "\n"

/-- The lines written to standard output by a list of events. -/
def printed : List Event → List String
  | [] => []
  | Event.printf name single multi :: es => printLine name single multi :: printed es
  | Event.bench _ _ _ :: es => printed es

/-- The first argument of each `Printf` call, in order. -/
def printedNames : List Event → List String
  | [] => []
  | Event.printf name _ _ :: es => name :: printedNames es
  | Event.bench _ _ _ :: es => printedNames es

/-- The `nThreads` argument of each call of `bench`, in order. -/
def benchArgs : List Event → List Int
  | [] => []
  | Event.bench _ nThreads _ :: es => nThreads :: benchArgs es
  | Event.printf _ _ _ :: es => benchArgs es

/-- The fields of a printed line: the text before the final newline, split at
each comma. -/
def fields (line : String) : List (List Char) :=
  (line.toList.dropLast).splitOn ','

/-- The statements of `main` that fix the parallelism:
`if *nproc < 0 { *nproc = 0 }`, then
`if *nproc != 0 { runtime.GOMAXPROCS(*nproc) } else { *nproc = runtime.GOMAXPROCS(0) }`. -/
def resolveNproc (nproc gomaxprocs : Int) : Int :=
  let nproc1 := if nproc < 0 then 0 else nproc
  if nproc1 ≠ 0 then nproc1 else gomaxprocs

/-- The loop `for _, b := range goBenchmarks` of `main`, over any registry.
`benchF n` is the `n`-th invocation of `bench` of the run. -/
def runLoop (benchF : Nat → BenchInit → Int → Outcome) (matchName : String → Bool)
    (nproc : Int) : List Workload → Nat → Run
  | [], _ => ⟨[], Status.ok⟩
  | b :: rest, n =>
    if !matchName b.name then runLoop benchF matchName nproc rest n
    else
      match benchF n b.benc 1 with
      | Outcome.ret totalSingle =>
        match benchF (n + 1) b.benc nproc with
        | Outcome.ret totalMulti =>
          ⟨Event.bench b.benc 1 (Outcome.ret totalSingle) ::
            Event.bench b.benc nproc (Outcome.ret totalMulti) ::
            Event.printf b.name (b.report totalSingle) (b.report totalMulti) ::
            (runLoop benchF matchName nproc rest (n + 2)).events,
           (runLoop benchF matchName nproc rest (n + 2)).status⟩
        | o =>
          ⟨[Event.bench b.benc 1 (Outcome.ret totalSingle), Event.bench b.benc nproc o],
           o.status⟩
      | o => ⟨[Event.bench b.benc 1 o], o.status⟩

/-- The function `main` over a registry: the CPU profile is started when asked
for (a failure is fatal), the parallelism is fixed, the filter pattern is
compiled by `regexp.MustCompile` (which panics on a pattern that does not
compile), and the loop runs.  The line `log.Println("Max threads:", ...)` goes
to standard error and is not an event. -/
def mainWith (registry : List Workload) (env : Env) (flags : Flags) : Run :=
  if flags.cpuprofile ≠ "" ∧ env.profileStarts flags.cpuprofile = false then
    ⟨[], Status.fatal⟩
  else if env.regexp.compiles flags.run = false then ⟨[], Status.panic⟩
  else
    runLoop (fun n init nThreads => bench flags.duration (env.sched n) init nThreads)
      (env.regexp.matchString flags.run)
      (resolveNproc flags.nproc env.gomaxprocs) registry 0

/-- The program: `main` over `goBenchmarks`. -/
def main (env : Env) (flags : Flags) : Run :=
  mainWith (goBenchmarks env flags.duration) env flags

/-- The workloads of a registry that the filter selects. -/
def selected (matchName : String → Bool) (registry : List Workload) : List Workload :=
  registry.filter (fun b => matchName b.name)

/-- The three events of a workload that ran to its line: the two calls of
`bench`, which returned `t.1` and `t.2`, and the call of `Printf`. -/
def record (nproc : Int) (b : Workload) (t : Int × Int) : List Event :=
  [Event.bench b.benc 1 (Outcome.ret t.1),
   Event.bench b.benc nproc (Outcome.ret t.2),
   Event.printf b.name (b.report t.1) (b.report t.2)]

/-- The duration the flag `-t` asks for ("Duration of each benchmark in
seconds"), in nanoseconds. -/
def configuredDuration (duration : Nat) : Int := (duration : Int) * 1000000000

/-- The CPU profile, when the flag `-cpuprofile` asks for one, can be created
and started. -/
def ProfileStarts (env : Env) (flags : Flags) : Prop :=
  flags.cpuprofile = "" ∨ env.profileStarts flags.cpuprofile = true

/-- No workload of the registry that the filter selects has a setup call that
panics or an operation with a call that takes the `log.Fatalln` branch. -/
def NoFailure (registry : List Workload) (env : Env) (flags : Flags) : Prop :=
  ∀ b ∈ registry, env.regexp.matchString flags.run b.name = true →
    ∀ i, ∃ op, b.benc i = some op ∧ ∀ k, op k = false

/-- In every invocation of `bench` the clock of every goroutine passes the
end of the measurement window at a reading within the fuel.  The end of the
window is the threshold of the loop condition, which is never later than the
configured duration. -/
def ClockAdvances (env : Env) (flags : Flags) : Prop :=
  ∀ n i, ∃ k, k < (env.sched n).fuel ∧
    benchDuration flags.duration ≤ (env.sched n).clock i k - (env.sched n).start

/-! ## Sample schedules -/

/-- A schedule in which the `k`-th reading of goroutine `i` comes `k * (4 + 2 * i)`
seconds after the start, and the goroutines deliver in the order 2, 0, 1. -/
def sampleSched : Sched :=
  { start := 5
    clock := fun i k => 5 + (k : Int) * (4 + 2 * (i : Int)) * 1000000000
    order := [2, 0, 1]
    fuel := 10 }

/-- A timed schedule in which every operation takes 0.4 seconds, the setup
call of goroutine 0 takes no time and the setup call of every other goroutine
takes 5 seconds. -/
def slowSetupSched : Sched :=
  timedSched 0 (fun i => if i = 0 then 0 else 5000000000) (fun _ _ => 400000000) [0, 1] 10

/-- A timed schedule in which every setup call takes a second and every
operation 4 seconds. -/
def steadySched : Sched :=
  timedSched 0 (fun _ => 1000000000) (fun _ _ => 4000000000) [1, 0] 10

/-- A stand-in for the package `regexp` that knows one filter pattern, which
selects the three names starting with `E` or `html.E`, rejects the pattern
`(`, and finds no match in a byte slice. -/
def sampleRegexp : Regexp :=
  { compiles := fun pat => pat != "("
    matchBytes := fun _ _ => false
    matchString := fun pat s =>
      pat == "^E|^html.E" &&
        (s == "ECDSA-P256 Sign" || s == "ECDSA-P256 Verify" || s == "html.EscapeString") }

/-- An environment with 4 processing units in which every invocation of `bench`
meets the clock of `sampleSched`. -/
def sampleEnv : Env :=
  { regexp := sampleRegexp
    gomaxprocs := 4
    profileStarts := fun _ => true
    sched := fun n =>
      { start := sampleSched.start
        clock := sampleSched.clock
        order := if n % 2 = 0 then [0] else [1, 0]
        fuel := sampleSched.fuel }
    sprintf2f := fun _ _ => "0.00"
    lenTwain := 0
    lenE := 0 }

/-- The command line `-c 2 -t 10 -r '^E|^html.E'`. -/
def sampleFlags : Flags :=
  { cpuprofile := "", nproc := 2, duration := 10, run := "^E|^html.E" }

/-- The command line `-c 2 -t 10 -r '('`. -/
def badPatternFlags : Flags :=
  { cpuprofile := "", nproc := 2, duration := 10, run := "(" }

/-- A stand-in for the package `regexp` in which every pattern compiles and
matches everything. -/
def matchAllRegexp : Regexp :=
  { compiles := fun _ => true
    matchBytes := fun _ _ => true
    matchString := fun _ _ => true }

/-- The environment `sampleEnv` with the package `matchAllRegexp`. -/
def matchAllEnv : Env :=
  { regexp := matchAllRegexp
    gomaxprocs := sampleEnv.gomaxprocs
    profileStarts := sampleEnv.profileStarts
    sched := sampleEnv.sched
    sprintf2f := sampleEnv.sprintf2f
    lenTwain := sampleEnv.lenTwain
    lenE := sampleEnv.lenE }

/-- A workload without a fatal branch. -/
def noopWorkload : Workload :=
  { name := "noop", benc := plainInit, report := fun _ => "0 ops" }

/-- A workload whose operation fails its self-check on every call. -/
def failingWorkload : Workload :=
  { name := "regexp.Match easy"
    benc := BenchmarkMatch matchAllRegexp easyRE
    report := fun _ => "0 ops" }

/-- The environment `sampleEnv` in which no CPU profile can be created. -/
def noProfileEnv : Env :=
  { regexp := sampleEnv.regexp
    gomaxprocs := sampleEnv.gomaxprocs
    profileStarts := fun _ => false
    sched := sampleEnv.sched
    sprintf2f := sampleEnv.sprintf2f
    lenTwain := sampleEnv.lenTwain
    lenE := sampleEnv.lenE }

/-- The command line `-cpuprofile /nonexistent/cpu.prof -c 2 -t 10 -r '^E|^html.E'`. -/
def profileFlags : Flags :=
  { cpuprofile := "/nonexistent/cpu.prof", nproc := 2, duration := 10, run := "^E|^html.E" }

/-! ## Theorems -/

theorem nextX_lt (x : Nat) : nextX x < 2 ^ 32 := by
  unfold nextX
  have h1 : (x + x) % 2 ^ 32 < 2 ^ 32 := Nat.mod_lt _ (by norm_num)
  have h2 : ((x + x) % 2 ^ 32) ^^^ 1 < 2 ^ 32 := Nat.xor_lt_two_pow h1 (by norm_num)
  simp only
  split
  · exact Nat.xor_lt_two_pow h2 (by norm_num)
  · exact h2

theorem nextX_eq_specStep (x : Nat) : nextX x = specStep x := by
  unfold nextX specStep
  have h1 : (x + x) % 2 ^ 32 < 2 ^ 32 := Nat.mod_lt _ (by norm_num)
  have h2 : ((x + x) % 2 ^ 32) ^^^ 1 < 2 ^ 32 := Nat.xor_lt_two_pow h1 (by norm_num)
  have e : 2 * x = x + x := by ring
  simp only [e]
  have hx : ∀ a b : Nat, Nat.xor a b = a ^^^ b := fun _ _ => rfl
  simp only [hx]
  generalize ((x + x) % 2 ^ 32) ^^^ 1 = y at h2 ⊢
  by_cases hy : 2 ^ 31 ≤ y
  · have : y / 2 ^ 31 % 2 = 1 := by omega
    rw [if_pos hy, if_pos this]
  · have : ¬ (y / 2 ^ 31 % 2 = 1) := by omega
    rw [if_neg hy, if_neg this]

theorem textByte_eq_specEmit (x : Nat) : textByte x = specEmit x := by
  unfold textByte specEmit
  split
  · rfl
  · omega

theorem fillLoop_specState (n k : Nat) (acc : List Nat) :
    fillLoop n (specState k) acc =
      acc.reverse ++ (List.range n).map (fun i => specEmit (specState (k + i + 1))) := by
  induction n generalizing k acc with
  | zero => simp [fillLoop]
  | succ n ih =>
    have hs : nextX (specState k) = specState (k + 1) := by
      rw [nextX_eq_specStep]; rfl
    rw [fillLoop, hs, textByte_eq_specEmit, ih (k + 1), List.range_succ_eq_map]
    simp only [List.reverse_cons, List.append_assoc, List.singleton_append, List.map_cons,
      List.map_map, Nat.add_zero]
    congr 2
    apply List.map_congr_left
    intro i _
    simp only [Function.comp]
    congr 2
    omega

theorem fillText_specState (n k : Nat) :
    fillText n (specState k) =
      (List.range n).map (fun i => specEmit (specState (k + i + 1))) := by
  unfold fillText
  rw [fillLoop_specState]
  rfl

theorem fillText_seed (n : Nat) : fillText n (2 ^ 32 - 1) = specStream n := by
  have h := fillText_specState n 0
  have e : specState 0 = 2 ^ 32 - 1 := by norm_num [specState]
  rw [e] at h
  rw [h]
  unfold specStream
  apply List.map_congr_left
  intro i _
  simp

theorem specStream_length (n : Nat) : (specStream n).length = n := by
  simp [specStream]

theorem specStream_take (n m : Nat) (h : n ≤ m) :
    (specStream m).take n = specStream n := by
  unfold specStream
  rw [← List.map_take, List.take_range, Nat.min_eq_left h]

theorem makeText_specStream (m : Nat) (n : Int) (h : 0 ≤ n) :
    makeText (specStream m) n =
      some (specStream n.toNat, specStream (max m n.toNat)) := by
  unfold makeText
  rw [specStream_length]
  by_cases hc : (m : Int) ≥ n
  · have hle : n.toNat ≤ m := by omega
    rw [if_pos hc, if_neg (by omega), specStream_take _ _ hle, Nat.max_eq_left hle]
  · have hle : m ≤ n.toNat := by omega
    rw [if_neg hc, fillText_seed, Nat.max_eq_right hle]

theorem makeTextCalls_specStream (ns : List Int) (m : Nat) (h : ∀ n ∈ ns, 0 ≤ n) :
    makeTextCalls (specStream m) ns = some (ns.map (fun n => specStream n.toNat)) := by
  induction ns generalizing m with
  | nil => rfl
  | cons n ns ih =>
    have h0 : 0 ≤ n := h n (List.mem_cons_self _ _)
    have ht : ∀ k ∈ ns, 0 ≤ k := fun k hk => h k (List.mem_cons_of_mem _ hk)
    simp only [makeTextCalls, makeText_specStream m n h0, ih _ ht, List.map_cons]

theorem benchText_eq :
    makeText [] ((1 <<< 18 : Nat) : Int) = some (specStream 262144, specStream 262144) := by
  have h := makeText_specStream 0 ((1 <<< 18 : Nat) : Int) (by decide)
  have e0 : specStream 0 = [] := rfl
  have e1 : ((1 <<< 18 : Nat) : Int).toNat = 262144 := by decide
  have e2 : max 0 262144 = 262144 := by decide
  rw [e0, e1, e2] at h
  exact h

/-- C10: for every sequence of calls `makeText(n_1), ..., makeText(n_k)` with
all `n_i >= 0`, started on the empty cached text, every call returns, the
`i`-th result is the first `n_i` bytes of the one fixed stream `specStream`
(seed `0xFFFFFFFF`, the 32-bit recurrence of the specification), it has
exactly `n_i` bytes, and two results agree on their common prefix. -/
theorem makeText_calls_fixed_stream (ns : List Int) (h : ∀ n ∈ ns, 0 ≤ n) :
    makeTextCalls [] ns = some (ns.map (fun n => specStream n.toNat)) ∧
    (∀ n ∈ ns, (specStream n.toNat).length = n) ∧
    (∀ a b : Nat, a ≤ b → specStream a = (specStream b).take a) := by
  refine ⟨makeTextCalls_specStream ns 0 h, ?_, ?_⟩
  · intro n hn
    rw [specStream_length]
    exact Int.toNat_of_nonneg (h n hn)
  · intro a b hab
    exact (specStream_take a b hab).symm

theorem makeText_calls_fixed_stream_witness :
    (∀ n ∈ [(3 : Int), 0, 5, 2], 0 ≤ n) ∧
    (makeTextCalls [] [3, 0, 5, 2] =
        some ([(3 : Int), 0, 5, 2].map (fun n => specStream n.toNat)) ∧
      (∀ n ∈ [(3 : Int), 0, 5, 2], (specStream n.toNat).length = n) ∧
      (∀ a b : Nat, a ≤ b → specStream a = (specStream b).take a)) :=
  ⟨by decide, makeText_calls_fixed_stream [3, 0, 5, 2] (by decide)⟩

/-! ### Machine arithmetic -/

theorem toInt64_of_fits (x : Int) (h1 : -(2 ^ 63) ≤ x) (h2 : x < 2 ^ 63) : toInt64 x = x := by
  unfold toInt64
  omega

theorem toInt64_range (x : Int) : -(2 ^ 63) ≤ toInt64 x ∧ toInt64 x < 2 ^ 63 := by
  unfold toInt64
  omega

theorem toInt64_add_left (a t : Int) : toInt64 (toInt64 a + t) = toInt64 (a + t) := by
  unfold toInt64
  omega

theorem benchDuration_le_max (duration : Nat) : benchDuration duration ≤ maxDuration := by
  have h := (toInt64_range (toInt64 duration * 1000000000)).2
  unfold benchDuration maxDuration
  omega

theorem benchDuration_of_small (duration : Nat) (h : duration ≤ 9223372036) :
    benchDuration duration = (duration : Int) * 1000000000 := by
  unfold benchDuration
  have h1 : toInt64 (duration : Int) = duration := by
    apply toInt64_of_fits <;> omega
  rw [h1]
  apply toInt64_of_fits <;> omega

/-! ### The final loop of `bench` -/

theorem drain_foldl (l : List Int) (a : Int) :
    l.foldl (fun total t => toInt64 (total + t)) (toInt64 a) = toInt64 (a + l.sum) := by
  induction l generalizing a with
  | nil => simp
  | cons t l ih =>
    rw [List.foldl_cons, toInt64_add_left, ih, List.sum_cons, add_assoc]

theorem drain_eq (l : List Int) : drain l = toInt64 l.sum := by
  have h := drain_foldl l 0
  have h0 : toInt64 0 = 0 := by unfold toInt64; omega
  rw [h0, zero_add] at h
  exact h

theorem drain_perm (l1 l2 : List Int) (h : l1.Perm l2) : drain l1 = drain l2 := by
  rw [drain_eq, drain_eq, h.sum_eq]

/-! ### The loop of a goroutine -/

theorem workerLoop_sent (b : Operation) (clock : Nat → Int) (start D : Int) :
    ∀ (fuel k0 : Nat) (t0 c : Int) (k : Nat),
      workerLoop b clock start D fuel k0 t0 = WorkerExit.sent c k →
      k0 ≤ k ∧ ¬ (timeSub (clock k) start < D) ∧
      (∀ j, k0 ≤ j → j < k → timeSub (clock j) start < D ∧ b j = false) ∧
      toInt64 c = toInt64 (t0 + ((k : Int) - k0)) ∧
      ((-(2 ^ 63) ≤ t0 ∧ t0 < 2 ^ 63) → (-(2 ^ 63) ≤ c ∧ c < 2 ^ 63)) := by
  intro fuel
  induction fuel with
  | zero =>
    intro k0 t0 c k h
    simp [workerLoop] at h
  | succ fuel ih =>
    intro k0 t0 c k h
    rw [workerLoop] at h
    by_cases hc : timeSub (clock k0) start < D
    · rw [if_pos hc] at h
      by_cases hb : b k0 = true
      · rw [if_pos hb] at h
        cases h
      · rw [if_neg hb] at h
        obtain ⟨h1, h2, h3, h4, h5⟩ := ih (k0 + 1) (toInt64 (t0 + 1)) c k h
        refine ⟨by omega, h2, ?_, ?_, ?_⟩
        · intro j hj1 hj2
          by_cases hj : j = k0
          · subst hj
            exact ⟨hc, by simpa using hb⟩
          · exact h3 j (by omega) hj2
        · rw [h4, toInt64_add_left]
          congr 1
          push_cast
          ring
        · intro _
          exact h5 (toInt64_range _)
    · rw [if_neg hc] at h
      injection h with e1 e2
      subst e1
      subst e2
      refine ⟨le_refl _, hc, ?_, ?_, ?_⟩
      · intro j hj1 hj2
        omega
      · simp
      · exact fun h => h

theorem workerLoop_exits (b : Operation) (clock : Nat → Int) (start D : Int)
    (hb : ∀ j, b j = false) :
    ∀ (fuel k0 : Nat) (t0 : Int) (n : Nat), k0 ≤ n → n < k0 + fuel →
      ¬ (timeSub (clock n) start < D) →
      ∃ c k, workerLoop b clock start D fuel k0 t0 = WorkerExit.sent c k := by
  intro fuel
  induction fuel with
  | zero =>
    intro k0 t0 n h1 h2 _
    omega
  | succ fuel ih =>
    intro k0 t0 n h1 h2 hn
    rw [workerLoop]
    by_cases hc : timeSub (clock k0) start < D
    · rw [if_pos hc, hb k0]
      have hne : k0 ≠ n := by
        intro e
        subst e
        exact hn hc
      exact ih (k0 + 1) (toInt64 (t0 + 1)) n (by omega) (by omega) hn
    · rw [if_neg hc]
      exact ⟨t0, k0, rfl⟩

theorem timeSub_ge_of_le (t u D : Int) (h : u ≤ t) (hD : ¬ (timeSub t u < D)) : D ≤ t - u := by
  unfold timeSub maxDuration minDuration at hD
  split_ifs at hD <;> omega

theorem timeSub_lt_of_le (t u D : Int) (h : u ≤ t) (hmax : D ≤ maxDuration)
    (hD : timeSub t u < D) : t - u < D := by
  unfold timeSub maxDuration minDuration at hD
  unfold maxDuration at hmax
  split_ifs at hD <;> omega

/-! ### bench -/

theorem any_sent_eq_false (exits : List WorkerExit)
    (h : ∀ e ∈ exits, ∃ c k, e = WorkerExit.sent c k) (x : WorkerExit)
    (hx : ∀ c k, x ≠ WorkerExit.sent c k) :
    exits.any (fun e => decide (e = x)) = false := by
  rw [List.any_eq_false]
  intro e he
  obtain ⟨c, k, rfl⟩ := h e he
  simpa using (hx c k).symm

theorem map_getD_range {α β : Type} (l : List α) (d : α) (f : α → β) :
    (List.range l.length).map (fun i => f (l.getD i d)) = l.map f := by
  apply List.ext_getElem
  · simp
  · intro i h1 h2
    simp at h1
    simp [List.getD_eq_getElem, h1]

theorem workerExits_length (duration : Nat) (w : Sched) (init : BenchInit) (T : Nat) :
    (workerExits duration w init T).length = T := by
  simp [workerExits]

theorem bench_of_sent (duration : Nat) (w : Sched) (init : BenchInit) (T : Nat)
    (hsent : ∀ e ∈ workerExits duration w init T, ∃ c k, e = WorkerExit.sent c k) :
    bench duration w init T =
      Outcome.ret (drain (w.order.map
        (fun i => ((workerExits duration w init T).getD i WorkerExit.running).count))) := by
  unfold bench
  have h0 : ¬ ((T : Int) < 0) := by omega
  rw [if_neg h0]
  simp only [Int.toNat_ofNat]
  rw [any_sent_eq_false _ hsent WorkerExit.fatal (by intro c k h; cases h),
    any_sent_eq_false _ hsent WorkerExit.panic (by intro c k h; cases h),
    any_sent_eq_false _ hsent WorkerExit.running (by intro c k h; cases h)]
  simp

theorem isSent_iff (e : WorkerExit) : e.isSent = true ↔ ∃ c k, e = WorkerExit.sent c k := by
  cases e <;> simp [WorkerExit.isSent]

theorem mem_workerExits (duration : Nat) (w : Sched) (init : BenchInit) (T : Nat)
    (e : WorkerExit) :
    e ∈ workerExits duration w init T ↔
      ∃ i, i < T ∧ worker init i (w.clock i) w.start (benchDuration duration) w.fuel = e := by
  simp [workerExits]

theorem bench_ret_sent (duration : Nat) (w : Sched) (init : BenchInit) (T : Nat) (total : Int)
    (h : bench duration w init T = Outcome.ret total) :
    ∀ e ∈ workerExits duration w init T, ∃ c k, e = WorkerExit.sent c k := by
  unfold bench at h
  have h0 : ¬ ((T : Int) < 0) := by omega
  rw [if_neg h0] at h
  simp only [Int.toNat_ofNat] at h
  intro e he
  split_ifs at h with h1 h2 h3
  rw [Bool.not_eq_true, List.any_eq_false] at h1 h2 h3
  have e1 := h1 e he
  have e2 := h2 e he
  have e3 := h3 e he
  cases e with
  | sent c k => exact ⟨c, k, rfl⟩
  | fatal => simp at e1
  | panic => simp at e2
  | running => simp at e3

/-- C1: when each of the `T` goroutines of a `bench` invocation has put its
count on the channel, in whatever order `w.order` they did so, `bench` returns
the sum of the `T` counts: every count is added once.  The additions are
those of Go's 64-bit `int`, so the value returned is the sum wrapped to 64
bits, and it is the arithmetic sum itself whenever that sum is a value of
`int`. -/
theorem bench_total_eq_sum (duration : Nat) (w : Sched) (init : BenchInit) (T : Nat)
    (counts : List Int)
    (hsent : ∀ e ∈ workerExits duration w init T, e.isSent = true)
    (hcounts : (workerExits duration w init T).map WorkerExit.count = counts)
    (horder : w.order.Perm (List.range T)) :
    counts.length = T ∧
    bench duration w init T = Outcome.ret (toInt64 counts.sum) ∧
    ((-(2 ^ 63) ≤ counts.sum ∧ counts.sum < 2 ^ 63) →
      bench duration w init T = Outcome.ret counts.sum) := by
  have hs : ∀ e ∈ workerExits duration w init T, ∃ c k, e = WorkerExit.sent c k :=
    fun e he => (isSent_iff e).1 (hsent e he)
  have hlen : counts.length = T := by
    rw [← hcounts, List.length_map, workerExits_length]
  have hp := horder.map
    (fun i => ((workerExits duration w init T).getD i WorkerExit.running).count)
  have hr := map_getD_range (workerExits duration w init T) WorkerExit.running WorkerExit.count
  rw [workerExits_length] at hr
  have hmod : bench duration w init T = Outcome.ret (toInt64 counts.sum) := by
    rw [bench_of_sent duration w init T hs, drain_perm _ _ hp, hr, hcounts, drain_eq]
  refine ⟨hlen, hmod, ?_⟩
  intro hfit
  rw [hmod, toInt64_of_fits _ hfit.1 hfit.2]

theorem sampleSched_exits :
    workerExits 10 sampleSched plainInit 3 =
      [WorkerExit.sent 3 3, WorkerExit.sent 2 2, WorkerExit.sent 2 2] := by
  decide

theorem bench_total_eq_sum_witness :
    ((∀ e ∈ workerExits 10 sampleSched plainInit 3, e.isSent = true) ∧
      sampleSched.order.Perm (List.range 3)) ∧
    ([(3 : Int), 2, 2].length = 3 ∧
      bench 10 sampleSched plainInit (3 : Nat) = Outcome.ret (toInt64 ([(3 : Int), 2, 2].sum)) ∧
      ((-(2 ^ 63) ≤ [(3 : Int), 2, 2].sum ∧ [(3 : Int), 2, 2].sum < 2 ^ 63) →
        bench 10 sampleSched plainInit (3 : Nat) = Outcome.ret ([(3 : Int), 2, 2].sum))) :=
  ⟨⟨by rw [sampleSched_exits]; decide, by decide⟩,
    bench_total_eq_sum 10 sampleSched plainInit 3 [3, 2, 2]
      (by rw [sampleSched_exits]; decide) (by rw [sampleSched_exits]; rfl) (by decide)⟩

theorem timeSub_not_lt (t u D : Int) (h : u ≤ t) (hmax : D ≤ maxDuration) (hD : D ≤ t - u) :
    ¬ (timeSub t u < D) := by
  unfold timeSub maxDuration minDuration
  unfold maxDuration at hmax
  split_ifs <;> omega

theorem clock_ge_start (w : Sched) (hmono : ∀ i k, w.clock i k ≤ w.clock i (k + 1))
    (hstart : ∀ i, w.start ≤ w.clock i 0) (i k : Nat) : w.start ≤ w.clock i k := by
  induction k with
  | zero => exact hstart i
  | succ k ih => exact le_trans ih (hmono i k)

theorem worker_sent (init : BenchInit) (i : Nat) (clock : Nat → Int) (start D : Int)
    (fuel : Nat) (c : Int) (k : Nat)
    (h : worker init i clock start D fuel = WorkerExit.sent c k) :
    ∃ b, init i = some b ∧ ¬ (timeSub (clock k) start < D) ∧
      (∀ j, j < k → timeSub (clock j) start < D ∧ b j = false) ∧ c = toInt64 k := by
  unfold worker at h
  cases hb : init i with
  | none => rw [hb] at h; cases h
  | some b =>
    rw [hb] at h
    obtain ⟨_, h2, h3, h4, h5⟩ := workerLoop_sent b clock start D fuel 0 0 c k h
    refine ⟨b, rfl, h2, fun j hj => h3 j (Nat.zero_le _) hj, ?_⟩
    have hr := h5 (by omega)
    rw [← toInt64_of_fits c hr.1 hr.2, h4]
    congr 1
    simp

/-- Over a non-decreasing clock, in an invocation of `bench` with
`T >= 1` goroutines that returns, every goroutine compared its readings with
the one reading `w.start` and left its loop at a reading `r` with
`r - start >= D`, where `D` is the threshold `benchDuration duration` of the
loop condition; each of the operations it counted began at a reading with
`r - start < D`; and every reading `now` taken once all goroutines have left
has `now - start >= D`.  The invocation does return when the operations do
not end the process and the clock of every goroutine reaches `start + D`
within the fuel. -/
theorem bench_returns_after_duration (duration : Nat) (w : Sched) (init : BenchInit)
    (T : Nat) (hT : 1 ≤ T)
    (hmono : ∀ i k, w.clock i k ≤ w.clock i (k + 1))
    (hstart : ∀ i, w.start ≤ w.clock i 0) :
    (∀ total, bench duration w init T = Outcome.ret total →
      (∀ i, i < T → ∃ c k,
        worker init i (w.clock i) w.start (benchDuration duration) w.fuel
          = WorkerExit.sent c k ∧
        benchDuration duration ≤ w.clock i k - w.start ∧
        (∀ j, j < k → w.clock i j - w.start < benchDuration duration) ∧
        c = toInt64 k) ∧
      (∀ now : Int,
        (∀ i c k, i < T →
          worker init i (w.clock i) w.start (benchDuration duration) w.fuel
            = WorkerExit.sent c k → w.clock i k ≤ now) →
        benchDuration duration ≤ now - w.start)) ∧
    ((∀ i, i < T → ∃ b, init i = some b ∧ (∀ j, b j = false) ∧
        ∃ n, n < w.fuel ∧ benchDuration duration ≤ w.clock i n - w.start) →
      ∃ total, bench duration w init T = Outcome.ret total) := by
  have hge := clock_ge_start w hmono hstart
  constructor
  · intro total hret
    have hs := bench_ret_sent duration w init T total hret
    have hall : ∀ i, i < T → ∃ c k,
        worker init i (w.clock i) w.start (benchDuration duration) w.fuel
          = WorkerExit.sent c k ∧
        benchDuration duration ≤ w.clock i k - w.start ∧
        (∀ j, j < k → w.clock i j - w.start < benchDuration duration) ∧
        c = toInt64 k := by
      intro i hi
      obtain ⟨c, k, hck⟩ := hs _ ((mem_workerExits duration w init T _).2 ⟨i, hi, rfl⟩)
      obtain ⟨b, _, h2, h3, h4⟩ := worker_sent init i _ _ _ _ c k hck
      refine ⟨c, k, hck, timeSub_ge_of_le _ _ _ (hge i k) h2, ?_, h4⟩
      intro j hj
      exact timeSub_lt_of_le _ _ _ (hge i j) (benchDuration_le_max duration) (h3 j hj).1
    refine ⟨hall, ?_⟩
    intro now hnow
    obtain ⟨c, k, hck, hD, _, _⟩ := hall 0 (by omega)
    have := hnow 0 c k (by omega) hck
    omega
  · intro hall
    have hs : ∀ e ∈ workerExits duration w init T, ∃ c k, e = WorkerExit.sent c k := by
      intro e he
      obtain ⟨i, hi, rfl⟩ := (mem_workerExits duration w init T e).1 he
      obtain ⟨b, hb, hnf, n, hn, hD⟩ := hall i hi
      unfold worker
      rw [hb]
      exact workerLoop_exits b (w.clock i) w.start (benchDuration duration) hnf w.fuel 0 0 n
        (Nat.zero_le _) (by omega)
        (timeSub_not_lt _ _ _ (hge i n) (benchDuration_le_max duration) hD)
    exact ⟨_, bench_of_sent duration w init T hs⟩

theorem sampleSched_mono (i k : Nat) : sampleSched.clock i k ≤ sampleSched.clock i (k + 1) := by
  simp only [sampleSched]
  push_cast
  have h1 : (0 : Int) ≤ (i : Int) := Int.ofNat_nonneg i
  nlinarith

theorem sampleSched_start (i : Nat) : sampleSched.start ≤ sampleSched.clock i 0 := by
  simp [sampleSched]

theorem bench_returns_after_duration_witness :
    (1 ≤ 3 ∧ bench 10 sampleSched plainInit (3 : Nat) = Outcome.ret 7) ∧
    ((∀ total, bench 10 sampleSched plainInit (3 : Nat) = Outcome.ret total →
      (∀ i, i < 3 → ∃ c k,
        worker plainInit i (sampleSched.clock i) sampleSched.start (benchDuration 10)
          sampleSched.fuel = WorkerExit.sent c k ∧
        benchDuration 10 ≤ sampleSched.clock i k - sampleSched.start ∧
        (∀ j, j < k → sampleSched.clock i j - sampleSched.start < benchDuration 10) ∧
        c = toInt64 k) ∧
      (∀ now : Int,
        (∀ i c k, i < 3 →
          worker plainInit i (sampleSched.clock i) sampleSched.start (benchDuration 10)
            sampleSched.fuel = WorkerExit.sent c k → sampleSched.clock i k ≤ now) →
        benchDuration 10 ≤ now - sampleSched.start)) ∧
    ((∀ i, i < 3 → ∃ b, plainInit i = some b ∧ (∀ j, b j = false) ∧
        ∃ n, n < sampleSched.fuel ∧
          benchDuration 10 ≤ sampleSched.clock i n - sampleSched.start) →
      ∃ total, bench 10 sampleSched plainInit (3 : Nat) = Outcome.ret total)) :=
  ⟨⟨by decide, by decide⟩,
    bench_returns_after_duration 10 sampleSched plainInit 3 (by decide)
      sampleSched_mono sampleSched_start⟩

/-- For a flag `-t` of at most 9223372036 seconds the threshold of the loop
condition is the configured duration, and a goroutine that leaves its loop
does so at a reading `r` with `r - start` at least the configured duration. -/
theorem bench_returns_after_configured_duration (duration : Nat) (w : Sched)
    (init : BenchInit) (T : Nat) (hT : 1 ≤ T) (hdur : duration ≤ 9223372036)
    (hmono : ∀ i k, w.clock i k ≤ w.clock i (k + 1))
    (hstart : ∀ i, w.start ≤ w.clock i 0)
    (total : Int) (hret : bench duration w init T = Outcome.ret total) :
    benchDuration duration = configuredDuration duration ∧
    (∀ i, i < T → ∃ c k,
      worker init i (w.clock i) w.start (benchDuration duration) w.fuel
        = WorkerExit.sent c k ∧
      configuredDuration duration ≤ w.clock i k - w.start ∧
      (∀ j, j < k → w.clock i j - w.start < configuredDuration duration)) := by
  have e : benchDuration duration = configuredDuration duration :=
    benchDuration_of_small duration hdur
  refine ⟨e, ?_⟩
  intro i hi
  obtain ⟨c, k, hw, hD, hj, _⟩ :=
    ((bench_returns_after_duration duration w init T hT hmono hstart).1 total hret).1 i hi
  rw [e] at hD hj
  exact ⟨c, k, hw, hD, hj⟩

/-- C6 at the flag `-t 9223372037` (one goroutine, a non-decreasing clock whose
first reading in the loop condition equals the start timestamp): the
threshold `time.Duration(*duration)*time.Second` wraps to
-9223372036709551616 nanoseconds, the loop condition is false at the first
reading, the goroutine leaves its loop with elapsed time 0 and `bench`
returns 0, although the configured duration of 9223372037 seconds has not
elapsed.  At `-t 9223372036` the threshold is still the configured
duration. -/
theorem bench_returns_at_once :
    benchDuration 9223372037 = -9223372036709551616 ∧
    configuredDuration 9223372037 = 9223372037000000000 ∧
    worker plainInit 0 ((sampleEnv.sched 0).clock 0) (sampleEnv.sched 0).start
        (benchDuration 9223372037) (sampleEnv.sched 0).fuel = WorkerExit.sent 0 0 ∧
    bench 9223372037 (sampleEnv.sched 0) plainInit 1 = Outcome.ret 0 ∧
    (sampleEnv.sched 0).clock 0 0 - (sampleEnv.sched 0).start = 0 ∧
    ¬ (configuredDuration 9223372037
        ≤ (sampleEnv.sched 0).clock 0 0 - (sampleEnv.sched 0).start) ∧
    benchDuration 9223372036 = configuredDuration 9223372036 := by
  decide

theorem timeSub_not_lt_of_range (t u D : Int) (hmax : D ≤ maxDuration)
    (hmin : minDuration ≤ D) (hD : D ≤ t - u) : ¬ (timeSub t u < D) := by
  unfold timeSub maxDuration minDuration
  unfold maxDuration at hmax
  unfold minDuration at hmin
  split_ifs <;> omega

theorem benchDuration_ge_min (duration : Nat) : minDuration ≤ benchDuration duration := by
  have h := (toInt64_range (toInt64 duration * 1000000000)).1
  unfold benchDuration minDuration
  omega

/-- An invocation of `bench` returns when the parallelism is not negative, no
setup call panics, no operation takes its fatal branch and the clock of every
goroutine passes the end of the window within the fuel. -/
theorem bench_returns (duration : Nat) (w : Sched) (init : BenchInit) (nThreads : Int)
    (h0 : 0 ≤ nThreads)
    (hinit : ∀ i, i < nThreads.toNat → ∃ op, init i = some op ∧ ∀ k, op k = false)
    (hclock : ∀ i, i < nThreads.toNat →
      ∃ k, k < w.fuel ∧ benchDuration duration ≤ w.clock i k - w.start) :
    ∃ total, bench duration w init nThreads = Outcome.ret total := by
  obtain ⟨T, rfl⟩ : ∃ T : Nat, nThreads = (T : Int) := ⟨nThreads.toNat, by omega⟩
  simp only [Int.toNat_ofNat] at hinit hclock
  have hs : ∀ e ∈ workerExits duration w init T, ∃ c k, e = WorkerExit.sent c k := by
    intro e he
    obtain ⟨i, hi, rfl⟩ := (mem_workerExits duration w init T e).1 he
    obtain ⟨op, hop, hnf⟩ := hinit i hi
    obtain ⟨k, hk, hD⟩ := hclock i hi
    unfold worker
    rw [hop]
    exact workerLoop_exits op (w.clock i) w.start (benchDuration duration) hnf w.fuel 0 0 k
      (Nat.zero_le _) (by omega)
      (timeSub_not_lt_of_range _ _ _ (benchDuration_le_max duration)
        (benchDuration_ge_min duration) hD)
  exact ⟨_, bench_of_sent duration w init T hs⟩

/-! ### The timed model -/

theorem timedClock_ge (start setup : Int) (lat : Nat → Int) (h0 : 0 ≤ setup)
    (hlat : ∀ j, 0 ≤ lat j) (k : Nat) : start ≤ timedClock start setup lat k := by
  induction k with
  | zero => simp only [timedClock]; omega
  | succ k ih =>
    have := hlat k
    simp only [timedClock]
    omega

theorem le_maxLatency (l : List Int) (x : Int) (h : x ∈ l) : x ≤ maxLatency l := by
  induction l with
  | nil => cases h
  | cons y l ih =>
    simp only [maxLatency, List.foldr_cons]
    rcases List.mem_cons.1 h with e | hm
    · subst e
      exact le_max_left _ _
    · exact le_trans (ih hm) (le_max_right _ _)

theorem mem_executedLatencies (lat : Nat → Nat → Int) (ks : List Nat) (i j : Nat)
    (hi : i < ks.length) (hj : j < ks.getD i 0) : lat i j ∈ executedLatencies lat ks := by
  unfold executedLatencies
  rw [List.mem_flatMap]
  exact ⟨i, List.mem_range.2 hi, List.mem_map.2 ⟨j, List.mem_range.2 hj, rfl⟩⟩

theorem exitReads_getD (duration : Nat) (w : Sched) (init : BenchInit) (T i : Nat)
    (hi : i < T) :
    (exitReads duration w init T).getD i 0 =
      (worker init i (w.clock i) w.start (benchDuration duration) w.fuel).reads := by
  unfold exitReads workerExits
  rw [List.getD_eq_getElem _ _ (by simpa using hi)]
  simp

/-- C7 as amended: in the timed model (start timestamp first, then for each
goroutine a setup call and operations of non-negative durations), for a flag
`-t` of at most 9223372036 seconds, so that the threshold of the loop
condition is the configured duration `D`, when every goroutine's setup call
ends before `D` has elapsed: in an invocation of `bench` that returns, every
goroutine executes at least one operation and leaves its loop less than `D`
plus the largest latency of an executed operation after the start timestamp;
and the invocation does return when no setup call panics, no operation takes
its fatal branch and every goroutine's clock reaches `start + D` within the
fuel. -/
theorem bench_elapsed_lt_of_setup_lt (duration : Nat) (start : Int) (setup : Nat → Int)
    (lat : Nat → Nat → Int) (order : List Nat) (fuel : Nat) (init : BenchInit) (T : Nat)
    (hdur : duration ≤ 9223372036)
    (hlat : ∀ i j, 0 ≤ lat i j) (hsetup0 : ∀ i, 0 ≤ setup i)
    (hsetup : ∀ i, i < T → setup i < configuredDuration duration) :
    (∀ total, bench duration (timedSched start setup lat order fuel) init T
        = Outcome.ret total →
      ∀ i, i < T →
        1 ≤ (exitReads duration (timedSched start setup lat order fuel) init T).getD i 0 ∧
        timedClock start (setup i) (lat i)
            ((exitReads duration (timedSched start setup lat order fuel) init T).getD i 0)
            - start
          < configuredDuration duration +
            maxLatency (executedLatencies lat
              (exitReads duration (timedSched start setup lat order fuel) init T))) ∧
    ((∀ i, i < T → (∃ op, init i = some op ∧ ∀ k, op k = false) ∧
        ∃ k, k < fuel ∧
          configuredDuration duration ≤ timedClock start (setup i) (lat i) k - start) →
      ∃ total, bench duration (timedSched start setup lat order fuel) init T
        = Outcome.ret total) := by
  have e : benchDuration duration = configuredDuration duration :=
    benchDuration_of_small duration hdur
  constructor
  · intro total hret i hi
    rw [← e]
    have hs := bench_ret_sent duration _ init T total hret
    obtain ⟨c, k, hck⟩ := hs _ ((mem_workerExits duration _ init T _).2 ⟨i, hi, rfl⟩)
    have hk := exitReads_getD duration (timedSched start setup lat order fuel) init T i hi
    rw [hck] at hk
    simp only [WorkerExit.reads] at hk
    obtain ⟨b, _, h2, h3, _⟩ := worker_sent init i _ _ _ _ c k hck
    simp only [timedSched] at h2 h3
    have hge := timedClock_ge start (setup i) (lat i) (hsetup0 i) (hlat i)
    have hmax := benchDuration_le_max duration
    have hk1 : 1 ≤ k := by
      by_contra hlt
      have hk0 : k = 0 := by omega
      subst hk0
      have h0 := timeSub_ge_of_le _ _ _ (hge 0) h2
      have := hsetup i hi
      rw [← e] at this
      simp only [timedClock] at h0
      omega
    rw [hk]
    refine ⟨hk1, ?_⟩
    obtain ⟨k', rfl⟩ : ∃ k', k = k' + 1 := ⟨k - 1, by omega⟩
    have hprev := timeSub_lt_of_le _ _ _ (hge k') hmax (h3 k' (by omega)).1
    have hmem : lat i k' ∈ executedLatencies lat
        (exitReads duration (timedSched start setup lat order fuel) init T) := by
      apply mem_executedLatencies
      · simp [exitReads, workerExits_length, hi]
      · rw [hk]
        omega
    have hle := le_maxLatency _ _ hmem
    simp only [timedClock]
    omega
  · intro hall
    apply bench_returns duration (timedSched start setup lat order fuel) init T (by omega)
    · intro i hi
      simp only [Int.toNat_ofNat] at hi
      exact (hall i hi).1
    · intro i hi
      simp only [Int.toNat_ofNat] at hi
      obtain ⟨k, hk, hD⟩ := (hall i hi).2
      rw [← e] at hD
      exact ⟨k, hk, hD⟩

theorem bench_elapsed_lt_of_setup_lt_witness :
    ((10 : Nat) ≤ 9223372036 ∧ (1000000000 : Int) < configuredDuration 10) ∧
    bench 10 steadySched plainInit (2 : Nat) = Outcome.ret 6 ∧
    (∀ i, i < 2 →
      1 ≤ (exitReads 10 steadySched plainInit 2).getD i 0 ∧
      timedClock 0 1000000000 (fun _ => 4000000000)
          ((exitReads 10 steadySched plainInit 2).getD i 0) - 0
        < configuredDuration 10 +
          maxLatency (executedLatencies (fun _ _ => 4000000000)
            (exitReads 10 steadySched plainInit 2))) :=
  ⟨⟨by decide, by decide⟩, by decide,
    (bench_elapsed_lt_of_setup_lt 10 0 (fun _ => 1000000000) (fun _ _ => 4000000000) [1, 0]
      10 plainInit 2 (by decide) (fun _ _ => by show (0 : Int) ≤ 4000000000; decide)
      (fun _ => by show (0 : Int) ≤ 1000000000; decide)
      (fun _ _ => by show (1000000000 : Int) < configuredDuration 10; decide)).1 6
      (by decide)⟩

/-- C7 fails as stated: with two goroutines, `D` = 1 second, operations of
0.4 seconds, no setup time for goroutine 0 and a setup call of 5 seconds for
goroutine 1, `bench` returns; goroutine 0 executes three operations,
goroutine 1 none, and goroutine 1 leaves its loop 5 seconds after the start
timestamp, which is not less than `D` plus the largest latency of an executed
operation, 1.4 seconds in all. -/
theorem bench_elapsed_bound_fails :
    (0 < benchDuration 1) ∧
    bench 1 slowSetupSched plainInit (2 : Nat) = Outcome.ret 3 ∧
    exitReads 1 slowSetupSched plainInit 2 = [3, 0] ∧
    maxLatency (executedLatencies (fun _ _ => 400000000)
      (exitReads 1 slowSetupSched plainInit 2)) = 400000000 ∧
    slowSetupSched.clock 1 0 - slowSetupSched.start = 5000000000 ∧
    ¬ (slowSetupSched.clock 1 0 - slowSetupSched.start
        < benchDuration 1 +
          maxLatency (executedLatencies (fun _ _ => 400000000)
            (exitReads 1 slowSetupSched plainInit 2))) := by
  decide

/-! ### The loop of `main` -/

theorem runLoop_nil (benchF : Nat → BenchInit → Int → Outcome) (m : String → Bool)
    (nproc : Int) (n : Nat) : runLoop benchF m nproc [] n = ⟨[], Status.ok⟩ := rfl

theorem runLoop_skip (benchF : Nat → BenchInit → Int → Outcome) (m : String → Bool)
    (nproc : Int) (b : Workload) (rest : List Workload) (n : Nat) (h : m b.name = false) :
    runLoop benchF m nproc (b :: rest) n = runLoop benchF m nproc rest n := by
  rw [runLoop]
  simp [h]

theorem runLoop_first_stops (benchF : Nat → BenchInit → Int → Outcome) (m : String → Bool)
    (nproc : Int) (b : Workload) (rest : List Workload) (n : Nat) (h : m b.name = true)
    (h1 : ∀ t, benchF n b.benc 1 ≠ Outcome.ret t) :
    runLoop benchF m nproc (b :: rest) n =
      ⟨[Event.bench b.benc 1 (benchF n b.benc 1)], (benchF n b.benc 1).status⟩ := by
  rw [runLoop]
  simp only [h, Bool.not_true, Bool.false_eq_true, if_false]

theorem runLoop_second_stops (benchF : Nat → BenchInit → Int → Outcome) (m : String → Bool)
    (nproc : Int) (b : Workload) (rest : List Workload) (n : Nat) (h : m b.name = true)
    (t1 : Int) (h1 : benchF n b.benc 1 = Outcome.ret t1)
    (h2 : ∀ t, benchF (n + 1) b.benc nproc ≠ Outcome.ret t) :
    runLoop benchF m nproc (b :: rest) n =
      ⟨[Event.bench b.benc 1 (Outcome.ret t1),
        Event.bench b.benc nproc (benchF (n + 1) b.benc nproc)],
       (benchF (n + 1) b.benc nproc).status⟩ := by
  rw [runLoop]
  simp only [h, Bool.not_true, Bool.false_eq_true, if_false, h1]

theorem runLoop_both_return (benchF : Nat → BenchInit → Int → Outcome) (m : String → Bool)
    (nproc : Int) (b : Workload) (rest : List Workload) (n : Nat) (h : m b.name = true)
    (t1 t2 : Int) (h1 : benchF n b.benc 1 = Outcome.ret t1)
    (h2 : benchF (n + 1) b.benc nproc = Outcome.ret t2) :
    runLoop benchF m nproc (b :: rest) n =
      ⟨record nproc b (t1, t2) ++ (runLoop benchF m nproc rest (n + 2)).events,
       (runLoop benchF m nproc rest (n + 2)).status⟩ := by
  rw [runLoop]
  simp only [h, Bool.not_true, Bool.false_eq_true, if_false, h1, h2]
  rfl

/-- The ways the loop can treat the first workload of a registry. -/
theorem runLoop_cases (benchF : Nat → BenchInit → Int → Outcome) (m : String → Bool)
    (nproc : Int) (b : Workload) (rest : List Workload) (n : Nat) :
    (m b.name = false ∧
      runLoop benchF m nproc (b :: rest) n = runLoop benchF m nproc rest n) ∨
    (m b.name = true ∧ (benchF n b.benc 1).status ≠ Status.ok ∧
      runLoop benchF m nproc (b :: rest) n =
        ⟨[Event.bench b.benc 1 (benchF n b.benc 1)], (benchF n b.benc 1).status⟩) ∨
    (m b.name = true ∧ (benchF (n + 1) b.benc nproc).status ≠ Status.ok ∧
      ∃ t1, benchF n b.benc 1 = Outcome.ret t1 ∧
        runLoop benchF m nproc (b :: rest) n =
          ⟨[Event.bench b.benc 1 (Outcome.ret t1),
            Event.bench b.benc nproc (benchF (n + 1) b.benc nproc)],
           (benchF (n + 1) b.benc nproc).status⟩) ∨
    (m b.name = true ∧
      ∃ t1 t2, benchF n b.benc 1 = Outcome.ret t1 ∧
        benchF (n + 1) b.benc nproc = Outcome.ret t2 ∧
        runLoop benchF m nproc (b :: rest) n =
          ⟨record nproc b (t1, t2) ++ (runLoop benchF m nproc rest (n + 2)).events,
           (runLoop benchF m nproc rest (n + 2)).status⟩) := by
  cases hm : m b.name with
  | false => exact Or.inl ⟨rfl, runLoop_skip benchF m nproc b rest n hm⟩
  | true =>
    right
    by_cases h1 : ∃ t1, benchF n b.benc 1 = Outcome.ret t1
    · obtain ⟨t1, h1⟩ := h1
      right
      by_cases h2 : ∃ t2, benchF (n + 1) b.benc nproc = Outcome.ret t2
      · obtain ⟨t2, h2⟩ := h2
        exact Or.inr ⟨rfl, t1, t2, h1, h2,
          runLoop_both_return benchF m nproc b rest n hm t1 t2 h1 h2⟩
      · left
        have h2' : ∀ t, benchF (n + 1) b.benc nproc ≠ Outcome.ret t :=
          fun t e => h2 ⟨t, e⟩
        refine ⟨rfl, ?_, t1, h1, runLoop_second_stops benchF m nproc b rest n hm t1 h1 h2'⟩
        cases ho : benchF (n + 1) b.benc nproc with
        | ret t => exact absurd ho (h2' t)
        | fatal => simp [Outcome.status]
        | panic => simp [Outcome.status]
        | running => simp [Outcome.status]
    · left
      have h1' : ∀ t, benchF n b.benc 1 ≠ Outcome.ret t := fun t e => h1 ⟨t, e⟩
      refine ⟨rfl, ?_, runLoop_first_stops benchF m nproc b rest n hm h1'⟩
      cases ho : benchF n b.benc 1 with
      | ret t => exact absurd ho (h1' t)
      | fatal => simp [Outcome.status]
      | panic => simp [Outcome.status]
      | running => simp [Outcome.status]

theorem selected_cons_true (m : String → Bool) (b : Workload) (rest : List Workload)
    (h : m b.name = true) : selected m (b :: rest) = b :: selected m rest := by
  simp [selected, List.filter_cons, h]

theorem selected_cons_false (m : String → Bool) (b : Workload) (rest : List Workload)
    (h : m b.name = false) : selected m (b :: rest) = selected m rest := by
  simp [selected, List.filter_cons, h]

theorem printedNames_append (l1 l2 : List Event) :
    printedNames (l1 ++ l2) = printedNames l1 ++ printedNames l2 := by
  induction l1 with
  | nil => rfl
  | cons e l ih => cases e <;> simp [printedNames, ih]

theorem printed_append (l1 l2 : List Event) :
    printed (l1 ++ l2) = printed l1 ++ printed l2 := by
  induction l1 with
  | nil => rfl
  | cons e l ih => cases e <;> simp [printed, ih]

theorem benchArgs_append (l1 l2 : List Event) :
    benchArgs (l1 ++ l2) = benchArgs l1 ++ benchArgs l2 := by
  induction l1 with
  | nil => rfl
  | cons e l ih => cases e <;> simp [benchArgs, ih]

theorem printed_length (l : List Event) : (printed l).length = (printedNames l).length := by
  induction l with
  | nil => rfl
  | cons e l ih => cases e <;> simp [printed, printedNames, ih]

/-- A run of the loop that ends normally consists of the records of the
selected workloads, in order, and the totals in them are what the calls of
`bench` number `n + 2 * j` and `n + 2 * j + 1` returned. -/
theorem runLoop_ok (benchF : Nat → BenchInit → Int → Outcome) (m : String → Bool)
    (nproc : Int) : ∀ (reg : List Workload) (n : Nat),
    (runLoop benchF m nproc reg n).status = Status.ok →
    ∃ totals : List (Int × Int), totals.length = (selected m reg).length ∧
      (runLoop benchF m nproc reg n).events
        = (List.zipWith (record nproc) (selected m reg) totals).flatten ∧
      ∀ (j : Nat) (b : Workload) (t : Int × Int),
        (selected m reg)[j]? = some b → totals[j]? = some t →
        benchF (n + 2 * j) b.benc 1 = Outcome.ret t.1 ∧
        benchF (n + 2 * j + 1) b.benc nproc = Outcome.ret t.2 := by
  intro reg
  induction reg with
  | nil =>
    intro n _
    exact ⟨[], rfl, rfl, by intro j b t h; simp [selected] at h⟩
  | cons b rest ih =>
    intro n hok
    rcases runLoop_cases benchF m nproc b rest n with
      ⟨hm, e⟩ | ⟨_, hs, e⟩ | ⟨_, hs, _, _, e⟩ | ⟨hm, t1, t2, h1, h2, e⟩
    · rw [e] at hok ⊢
      rw [selected_cons_false m b rest hm]
      exact ih n hok
    · rw [e] at hok
      exact absurd hok hs
    · rw [e] at hok
      exact absurd hok hs
    · rw [e] at hok ⊢
      obtain ⟨totals, hlen, hev, hidx⟩ := ih (n + 2) hok
      refine ⟨(t1, t2) :: totals, ?_, ?_, ?_⟩
      · rw [selected_cons_true m b rest hm]
        simp [hlen]
      · rw [selected_cons_true m b rest hm]
        simp only [List.zipWith_cons_cons, List.flatten_cons]
        rw [← hev]
      · intro j b' t hb ht
        rw [selected_cons_true m b rest hm] at hb
        cases j with
        | zero =>
          simp only [List.getElem?_cons_zero, Option.some.injEq] at hb ht
          subst hb
          subst ht
          exact ⟨h1, h2⟩
        | succ j =>
          simp only [List.getElem?_cons_succ] at hb ht
          have := hidx j b' t hb ht
          have e1 : n + 2 * (j + 1) = n + 2 + 2 * j := by omega
          rw [e1]
          exact this

theorem printedNames_records (nproc : Int) :
    ∀ (sel : List Workload) (totals : List (Int × Int)), totals.length = sel.length →
      printedNames (List.zipWith (record nproc) sel totals).flatten = sel.map Workload.name := by
  intro sel
  induction sel with
  | nil => intro totals _; simp [printedNames]
  | cons b sel ih =>
    intro totals hlen
    cases totals with
    | nil => simp at hlen
    | cons t totals =>
      simp only [List.zipWith_cons_cons, List.flatten_cons, printedNames_append, List.map_cons]
      rw [ih totals (by simpa using hlen)]
      rfl

theorem benchArgs_prefix (benchF : Nat → BenchInit → Int → Outcome) (m : String → Bool)
    (nproc : Int) : ∀ (reg : List Workload) (n : Nat),
    benchArgs (runLoop benchF m nproc reg n).events
      <+: (List.replicate reg.length [1, nproc]).flatten := by
  intro reg
  induction reg with
  | nil => intro n; simp [runLoop, benchArgs]
  | cons b rest ih =>
    intro n
    have hrep : (List.replicate (b :: rest).length [1, nproc]).flatten
        = [1, nproc] ++ (List.replicate rest.length [1, nproc]).flatten := by
      simp [List.replicate_succ]
    rw [hrep]
    rcases runLoop_cases benchF m nproc b rest n with
      ⟨_, e⟩ | ⟨_, _, e⟩ | ⟨_, _, _, _, e⟩ | ⟨_, t1, t2, _, _, e⟩
    · rw [e]
      have h1 := ih n
      have h2 : (List.replicate rest.length [1, nproc]).flatten
          <+: (List.replicate rest.length [1, nproc]).flatten ++ [1, nproc] :=
        List.prefix_append _ _
      have h3 : (List.replicate rest.length [1, nproc]).flatten ++ [1, nproc]
          = [1, nproc] ++ (List.replicate rest.length [1, nproc]).flatten := by
        have := List.replicate_succ' (n := rest.length) (a := [1, nproc])
        have h4 := congrArg List.flatten this
        rw [List.replicate_succ] at h4
        simp only [List.flatten_cons, List.flatten_append, List.flatten_nil,
          List.append_nil] at h4
        exact h4.symm
      rw [h3] at h2
      exact h1.trans h2
    · rw [e]
      simp only [benchArgs]
      exact ⟨nproc :: (List.replicate rest.length [1, nproc]).flatten, rfl⟩
    · rw [e]
      simp only [benchArgs]
      exact List.prefix_append _ _
    · rw [e]
      simp only [record, List.cons_append, List.nil_append, benchArgs]
      exact (List.prefix_append_right_inj [1, nproc]).2 (ih (n + 2))

/-! ### main -/

theorem goBenchmarks_names (env : Env) (duration : Nat) :
    (goBenchmarks env duration).map Workload.name =
      ["regexp.Match easy", "regexp.Match easy (i)", "regexp.Match easy2",
       "regexp.Match medium", "regexp.Match hard", "regexp.Match hard2",
       "ECDSA-P256 Sign", "ECDSA-P256 Verify", "RSA2048 Sign", "RSA2048 3-prime Sign",
       "AES-128-GCM Enc", "ChaCha20-Poly1305 Enc", "html.EscapeString",
       "html.UnescapeString", "compress/gzip compression Twain, -8",
       "compress/gzip decompression Twain, -d", "compress/gzip compression digits, -8",
       "compress/gzip decompression digits"] := rfl

theorem goBenchmarks_length (env : Env) (duration : Nat) :
    (goBenchmarks env duration).length = 18 := rfl

theorem goBenchmarks_nodup (env : Env) (duration : Nat) :
    ((goBenchmarks env duration).map Workload.name).Nodup := by
  rw [goBenchmarks_names]
  decide

theorem mainWith_ok (registry : List Workload) (env : Env) (flags : Flags)
    (hok : (mainWith registry env flags).status = Status.ok) :
    mainWith registry env flags =
      runLoop (fun n init nThreads => bench flags.duration (env.sched n) init nThreads)
        (env.regexp.matchString flags.run)
        (resolveNproc flags.nproc env.gomaxprocs) registry 0 := by
  unfold mainWith at hok ⊢
  by_cases h1 : flags.cpuprofile ≠ "" ∧ env.profileStarts flags.cpuprofile = false
  · rw [if_pos h1] at hok
    cases hok
  · rw [if_neg h1] at hok ⊢
    by_cases h2 : env.regexp.compiles flags.run = false
    · rw [if_pos h2] at hok
      cases hok
    · rw [if_neg h2]

/-- C8: when the filter pattern does not compile, `main` ends abnormally
before the loop: the run has no event at all, so no call of `bench` and no
printed line. -/
theorem main_invalid_pattern (env : Env) (flags : Flags)
    (h : env.regexp.compiles flags.run = false) :
    (main env flags).events = [] ∧
    ((main env flags).status = Status.panic ∨ (main env flags).status = Status.fatal) ∧
    benchArgs (main env flags).events = [] ∧
    printed (main env flags).events = [] := by
  have hev : (main env flags).events = [] ∧
      ((main env flags).status = Status.panic ∨ (main env flags).status = Status.fatal) := by
    unfold main mainWith
    by_cases h1 : flags.cpuprofile ≠ "" ∧ env.profileStarts flags.cpuprofile = false
    · rw [if_pos h1]
      exact ⟨rfl, Or.inr rfl⟩
    · rw [if_neg h1, if_pos h]
      exact ⟨rfl, Or.inl rfl⟩
  refine ⟨hev.1, hev.2, ?_, ?_⟩
  · rw [hev.1]; rfl
  · rw [hev.1]; rfl

theorem main_invalid_pattern_witness :
    sampleEnv.regexp.compiles badPatternFlags.run = false ∧
    ((main sampleEnv badPatternFlags).events = [] ∧
    ((main sampleEnv badPatternFlags).status = Status.panic ∨
      (main sampleEnv badPatternFlags).status = Status.fatal) ∧
    benchArgs (main sampleEnv badPatternFlags).events = [] ∧
    printed (main sampleEnv badPatternFlags).events = []) :=
  ⟨by decide, main_invalid_pattern sampleEnv badPatternFlags (by decide)⟩

/-! ### An operation that fails its self-check -/

theorem runLoop_append_ok (benchF : Nat → BenchInit → Int → Outcome) (m : String → Bool)
    (nproc : Int) (rest : List Workload) : ∀ (pre : List Workload) (n : Nat),
    (runLoop benchF m nproc pre n).status = Status.ok →
    runLoop benchF m nproc (pre ++ rest) n =
      ⟨(runLoop benchF m nproc pre n).events ++
          (runLoop benchF m nproc rest (n + 2 * (selected m pre).length)).events,
       (runLoop benchF m nproc rest (n + 2 * (selected m pre).length)).status⟩ := by
  intro pre
  induction pre with
  | nil =>
    intro n _
    simp [runLoop, selected]
  | cons b pre ih =>
    intro n hok
    rcases runLoop_cases benchF m nproc b pre n with
      ⟨hm, e⟩ | ⟨_, hs, e⟩ | ⟨_, hs, _, _, e⟩ | ⟨hm, t1, t2, h1, h2, e⟩
    · rw [e] at hok
      rw [List.cons_append, runLoop_skip benchF m nproc b (pre ++ rest) n hm, e,
        selected_cons_false m b pre hm]
      exact ih n hok
    · rw [e] at hok
      exact absurd hok hs
    · rw [e] at hok
      exact absurd hok hs
    · rw [e] at hok
      rw [List.cons_append, runLoop_both_return benchF m nproc b (pre ++ rest) n hm t1 t2 h1 h2,
        e, selected_cons_true m b pre hm, ih (n + 2) hok]
      have e1 : n + 2 + 2 * (selected m pre).length
          = n + 2 * (b :: selected m pre).length := by
        simp only [List.length_cons]
        omega
      rw [e1]
      simp

theorem workerLoop_fatal_iff (b : Operation) (clock : Nat → Int) (start D : Int) :
    ∀ (fuel k0 : Nat) (t0 : Int),
      workerLoop b clock start D fuel k0 t0 = WorkerExit.fatal ↔
        ∃ k, k0 ≤ k ∧ k < k0 + fuel ∧ b k = true ∧
          (∀ j, k0 ≤ j → j ≤ k → timeSub (clock j) start < D) ∧
          (∀ j, k0 ≤ j → j < k → b j = false) := by
  intro fuel
  induction fuel with
  | zero =>
    intro k0 t0
    simp only [workerLoop, Nat.add_zero]
    constructor
    · intro h
      cases h
    · rintro ⟨k, h1, h2, _⟩
      omega
  | succ fuel ih =>
    intro k0 t0
    rw [workerLoop]
    by_cases hc : timeSub (clock k0) start < D
    · rw [if_pos hc]
      by_cases hb : b k0 = true
      · rw [if_pos hb]
        constructor
        · intro _
          refine ⟨k0, le_refl _, by omega, hb, ?_, ?_⟩
          · intro j h1 h2
            have : j = k0 := by omega
            rw [this]
            exact hc
          · intro j h1 h2
            omega
        · intro _
          rfl
      · rw [if_neg hb, ih (k0 + 1) (toInt64 (t0 + 1))]
        constructor
        · rintro ⟨k, h1, h2, h3, h4, h5⟩
          refine ⟨k, by omega, by omega, h3, ?_, ?_⟩
          · intro j hj1 hj2
            by_cases hj : j = k0
            · rw [hj]
              exact hc
            · exact h4 j (by omega) hj2
          · intro j hj1 hj2
            by_cases hj : j = k0
            · rw [hj]
              simpa using hb
            · exact h5 j (by omega) hj2
        · rintro ⟨k, h1, h2, h3, h4, h5⟩
          have hne : k ≠ k0 := by
            intro e
            rw [e] at h3
            exact hb h3
          refine ⟨k, by omega, by omega, h3, ?_, ?_⟩
          · intro j hj1 hj2
            exact h4 j (by omega) hj2
          · intro j hj1 hj2
            exact h5 j (by omega) hj2
    · rw [if_neg hc]
      constructor
      · intro h
        cases h
      · rintro ⟨k, h1, _, _, h4, _⟩
        exact absurd (h4 k0 (le_refl _) h1) hc

/-- A goroutine ends in `log.Fatalln` exactly when some call of its operation
takes the fatal branch while every reading up to that call is before the
deadline and no earlier call took the branch. -/
theorem worker_fatal_iff (init : BenchInit) (i : Nat) (clock : Nat → Int) (start D : Int)
    (fuel : Nat) :
    worker init i clock start D fuel = WorkerExit.fatal ↔
      ∃ b k, init i = some b ∧ k < fuel ∧ b k = true ∧
        (∀ j, j ≤ k → timeSub (clock j) start < D) ∧ (∀ j, j < k → b j = false) := by
  unfold worker
  cases hb : init i with
  | none =>
    constructor
    · intro h
      cases h
    · rintro ⟨b, k, h, _⟩
      cases h
  | some b =>
    simp only [workerLoop_fatal_iff b clock start D fuel 0 0, Nat.zero_le, true_and,
      Nat.zero_add, forall_true_left, true_implies]
    constructor
    · rintro ⟨k, h2, h3, h4, h5⟩
      exact ⟨b, k, rfl, h2, h3, h4, h5⟩
    · rintro ⟨b', k, e, h2, h3, h4, h5⟩
      cases e
      exact ⟨k, h2, h3, h4, h5⟩

theorem bench_fatal_iff (duration : Nat) (w : Sched) (init : BenchInit) (nThreads : Int) :
    bench duration w init nThreads = Outcome.fatal ↔
      operationFails duration w init nThreads := by
  unfold bench operationFails
  by_cases h0 : nThreads < 0
  · rw [if_pos h0]
    have hz : nThreads.toNat = 0 := by omega
    rw [hz]
    constructor
    · intro h
      cases h
    · rintro ⟨i, hi, _⟩
      omega
  · rw [if_neg h0]
    simp only
    constructor
    · intro h
      split_ifs at h with h1
      rw [List.any_eq_true] at h1
      obtain ⟨e, he, hx⟩ := h1
      obtain ⟨i, hi, hw⟩ := (mem_workerExits duration w init _ e).1 he
      exact ⟨i, hi, by rw [hw]; simpa using hx⟩
    · rintro ⟨i, hi, hw⟩
      have h1 : (workerExits duration w init nThreads.toNat).any
          (fun e => decide (e = WorkerExit.fatal)) = true := by
        rw [List.any_eq_true]
        exact ⟨_, (mem_workerExits duration w init _ _).2 ⟨i, hi, rfl⟩, by simp [hw]⟩
      rw [if_pos h1]

/-- The operation of `BenchmarkMatch(re)` takes its fatal branch on the first
call when the pattern matches the text: a goroutine whose first reading is
before the deadline then ends in `log.Fatalln`. -/
theorem BenchmarkMatch_fatal (rx : Regexp) (re : String) (i : Nat) (clock : Nat → Int)
    (start D : Int) (fuel : Nat) (hc : rx.compiles re = true)
    (hm : rx.matchBytes re (specStream 262144) = true)
    (h0 : timeSub (clock 0) start < D) (hf : 0 < fuel) :
    worker (BenchmarkMatch rx re) i clock start D fuel = WorkerExit.fatal := by
  rw [worker_fatal_iff]
  refine ⟨fun _ => rx.matchBytes re (specStream 262144), 0, ?_, hf, hm, ?_, ?_⟩
  · unfold BenchmarkMatch
    rw [if_pos hc, benchText_eq]
  · intro j hj
    have : j = 0 := by omega
    rw [this]
    exact h0
  · intro j hj
    omega

/-- The operation of `BenchmarkMatch(re)` never takes its fatal branch when
the pattern does not match the text. -/
theorem BenchmarkMatch_not_fatal (rx : Regexp) (re : String) (i : Nat) (clock : Nat → Int)
    (start D : Int) (fuel : Nat)
    (hm : rx.matchBytes re (specStream 262144) = false) :
    worker (BenchmarkMatch rx re) i clock start D fuel ≠ WorkerExit.fatal := by
  rw [Ne, worker_fatal_iff]
  rintro ⟨b, k, hb, _, hk, _⟩
  unfold BenchmarkMatch at hb
  split_ifs at hb
  rw [benchText_eq] at hb
  simp only [Option.some.injEq] at hb
  rw [← hb, hm] at hk
  cases hk

/-- C9: let `b` be a selected workload of a registry `pre ++ b :: post`, let
the run be normal up to `b`, and let an operation of `b` fail its self-check
(reach `log.Fatalln`) during the first of the two calls of `bench` for `b`, or
during the second after the first has returned.  Then the process ends in
that fatal exit, the run prints exactly the lines of the workloads before `b`
and none for `b`, its events after those of `pre` are only the calls of
`bench` for `b`, so `bench` is called for no workload of `post`; and when `b`
is the first workload of the registry the run prints no line at all. -/
theorem fatal_operation_stops_run (env : Env) (flags : Flags) (pre post : List Workload)
    (b : Workload)
    (hpre : (mainWith pre env flags).status = Status.ok)
    (hsel : env.regexp.matchString flags.run b.name = true)
    (hfail :
      operationFails flags.duration
          (env.sched (2 * (selected (env.regexp.matchString flags.run) pre).length))
          b.benc 1 ∨
      ((∃ t, bench flags.duration
          (env.sched (2 * (selected (env.regexp.matchString flags.run) pre).length))
          b.benc 1 = Outcome.ret t) ∧
        operationFails flags.duration
          (env.sched (2 * (selected (env.regexp.matchString flags.run) pre).length + 1))
          b.benc (resolveNproc flags.nproc env.gomaxprocs))) :
    (mainWith (pre ++ b :: post) env flags).status = Status.fatal ∧
    printed (mainWith (pre ++ b :: post) env flags).events
      = printed (mainWith pre env flags).events ∧
    (∃ tail, (mainWith (pre ++ b :: post) env flags).events
        = (mainWith pre env flags).events ++ tail ∧
      (tail = [Event.bench b.benc 1 Outcome.fatal] ∨
        ∃ t, tail = [Event.bench b.benc 1 (Outcome.ret t),
          Event.bench b.benc (resolveNproc flags.nproc env.gomaxprocs) Outcome.fatal])) ∧
    (pre = [] → printed (mainWith (pre ++ b :: post) env flags).events = []) := by
  have hrun := mainWith_ok pre env flags hpre
  have hok' := hpre
  rw [hrun] at hok'
  have happ := runLoop_append_ok
    (fun n init nThreads => bench flags.duration (env.sched n) init nThreads)
    (env.regexp.matchString flags.run) (resolveNproc flags.nproc env.gomaxprocs)
    (b :: post) pre 0 hok'
  rw [Nat.zero_add] at happ
  have hfull : mainWith (pre ++ b :: post) env flags =
      runLoop (fun n init nThreads => bench flags.duration (env.sched n) init nThreads)
        (env.regexp.matchString flags.run)
        (resolveNproc flags.nproc env.gomaxprocs) (pre ++ b :: post) 0 := by
    unfold mainWith at hpre ⊢
    by_cases h1 : flags.cpuprofile ≠ "" ∧ env.profileStarts flags.cpuprofile = false
    · rw [if_pos h1] at hpre
      cases hpre
    · rw [if_neg h1] at hpre ⊢
      by_cases h2 : env.regexp.compiles flags.run = false
      · rw [if_pos h2] at hpre
        cases hpre
      · rw [if_neg h2]
  have key : ∃ tail,
      runLoop (fun n init nThreads => bench flags.duration (env.sched n) init nThreads)
        (env.regexp.matchString flags.run) (resolveNproc flags.nproc env.gomaxprocs)
        (b :: post) (2 * (selected (env.regexp.matchString flags.run) pre).length)
        = ⟨tail, Status.fatal⟩ ∧
      (tail = [Event.bench b.benc 1 Outcome.fatal] ∨
        ∃ t, tail = [Event.bench b.benc 1 (Outcome.ret t),
          Event.bench b.benc (resolveNproc flags.nproc env.gomaxprocs) Outcome.fatal]) := by
    rcases hfail with h1 | ⟨⟨t, h1⟩, h2⟩
    · rw [← bench_fatal_iff] at h1
      refine ⟨[Event.bench b.benc 1 Outcome.fatal], ?_, Or.inl rfl⟩
      rw [runLoop_first_stops _ _ _ b post _ hsel (by intro t e; rw [h1] at e; cases e), h1]
      rfl
    · rw [← bench_fatal_iff] at h2
      refine ⟨[Event.bench b.benc 1 (Outcome.ret t),
        Event.bench b.benc (resolveNproc flags.nproc env.gomaxprocs) Outcome.fatal], ?_,
        Or.inr ⟨t, rfl⟩⟩
      rw [runLoop_second_stops _ _ _ b post _ hsel t h1
        (by intro t' e; rw [h2] at e; cases e), h2]
      rfl
  obtain ⟨tail, htail, hshape⟩ := key
  rw [htail] at happ
  have hev : (mainWith (pre ++ b :: post) env flags).events
      = (mainWith pre env flags).events ++ tail := by
    rw [hfull, happ, hrun]
  have hprinted_tail : printed tail = [] := by
    rcases hshape with e | ⟨t, e⟩ <;> rw [e] <;> rfl
  have hprinted : printed (mainWith (pre ++ b :: post) env flags).events
      = printed (mainWith pre env flags).events := by
    rw [hev, printed_append, hprinted_tail, List.append_nil]
  refine ⟨?_, hprinted, ⟨tail, hev, hshape⟩, ?_⟩
  · rw [hfull, happ]
  · intro hnil
    rw [hprinted, hrun, hnil]
    rfl

theorem failing_first_call :
    operationFails 10 (sampleEnv.sched 2) failingWorkload.benc 1 :=
  ⟨0, by decide, by decide⟩

theorem fatal_operation_stops_run_witness :
    ((mainWith [noopWorkload] matchAllEnv sampleFlags).status = Status.ok ∧
      matchAllEnv.regexp.matchString sampleFlags.run failingWorkload.name = true) ∧
    (mainWith ([noopWorkload] ++ failingWorkload :: [noopWorkload]) matchAllEnv
        sampleFlags).status = Status.fatal ∧
    printed (mainWith ([noopWorkload] ++ failingWorkload :: [noopWorkload]) matchAllEnv
        sampleFlags).events = ["noop,0 ops,0 ops\n"] :=
  ⟨⟨by decide, by decide⟩,
    (fatal_operation_stops_run matchAllEnv sampleFlags [noopWorkload] [noopWorkload]
      failingWorkload (by decide) (by decide) (Or.inl failing_first_call)).1,
    by decide⟩

/-! ### The printed line -/

theorem printLine_toList (name single multi : String) :
    (printLine name single multi).toList
      = [','].intercalate [name.toList, single.toList, multi.toList] ++ ['\n'] := by
  simp [printLine, String.toList, List.intercalate]

/-- A line whose name and reports contain no comma has exactly the three
fields name, single-thread report, multi-thread report. -/
theorem fields_printLine (name single multi : String)
    (h1 : ',' ∉ name.toList) (h2 : ',' ∉ single.toList) (h3 : ',' ∉ multi.toList) :
    fields (printLine name single multi) = [name.toList, single.toList, multi.toList] := by
  unfold fields
  rw [printLine_toList, List.dropLast_concat]
  apply List.splitOn_intercalate
  · intro l hl
    simp only [List.mem_cons, List.mem_singleton, List.not_mem_nil, or_false] at hl
    rcases hl with e | e | e <;> rw [e] <;> assumption
  · simp

/-- C4 at the registered name `compress/gzip compression Twain, -8`: the name
is in `goBenchmarks`, the two report strings contain no comma, and the line
`main` prints for them splits at the commas into four fields, because the
name itself contains the separator. -/
theorem gzip_line_has_four_fields (env : Env) (duration : Nat) :
    (∃ b ∈ goBenchmarks env duration, b.name = "compress/gzip compression Twain, -8") ∧
    ',' ∉ "1.00 MiB/s".toList ∧ ',' ∉ "2.00 MiB/s".toList ∧
    fields (printLine "compress/gzip compression Twain, -8" "1.00 MiB/s" "2.00 MiB/s")
      = ["compress/gzip compression Twain".toList, " -8".toList,
         "1.00 MiB/s".toList, "2.00 MiB/s".toList] ∧
    (fields (printLine "compress/gzip compression Twain, -8" "1.00 MiB/s"
      "2.00 MiB/s")).length = 4 := by
  refine ⟨?_, by decide, by decide, by decide, by decide⟩
  have hmem : "compress/gzip compression Twain, -8"
      ∈ (goBenchmarks env duration).map Workload.name := by
    rw [goBenchmarks_names]
    decide
  obtain ⟨b, hb, hn⟩ := List.mem_map.1 hmem
  exact ⟨b, hb, hn⟩

/-- The registered names that contain the separator are the three `gzip`
names with a level suffix; the other fifteen contain no comma. -/
theorem goBenchmarks_names_with_comma (env : Env) (duration : Nat) :
    ((goBenchmarks env duration).map Workload.name).filter (fun n => decide (',' ∈ n.toList))
      = ["compress/gzip compression Twain, -8", "compress/gzip decompression Twain, -d",
         "compress/gzip compression digits, -8"] := by
  rw [goBenchmarks_names]
  decide

/-! ### Runs that reach the end -/

theorem benchDuration_le_configured (duration : Nat) :
    benchDuration duration ≤ configuredDuration duration := by
  unfold benchDuration configuredDuration toInt64
  have h : (0 : Int) ≤ (duration : Int) := Int.ofNat_nonneg duration
  omega

/-- The clock advances in the sense of `ClockAdvances` when every goroutine's
clock reaches the configured duration after the start within the fuel. -/
theorem clockAdvances_of_configured (env : Env) (flags : Flags)
    (h : ∀ n i, ∃ k, k < (env.sched n).fuel ∧
      configuredDuration flags.duration ≤ (env.sched n).clock i k - (env.sched n).start) :
    ClockAdvances env flags := by
  intro n i
  obtain ⟨k, hk, hD⟩ := h n i
  exact ⟨k, hk, le_trans (benchDuration_le_configured flags.duration) hD⟩

theorem runLoop_status_ok (benchF : Nat → BenchInit → Int → Outcome) (m : String → Bool)
    (nproc : Int) : ∀ (reg : List Workload),
    (∀ b ∈ reg, m b.name = true →
      ∀ n, (∃ t, benchF n b.benc 1 = Outcome.ret t) ∧
        (∃ t, benchF n b.benc nproc = Outcome.ret t)) →
    ∀ n, (runLoop benchF m nproc reg n).status = Status.ok := by
  intro reg
  induction reg with
  | nil => intro _ n; rfl
  | cons b rest ih =>
    intro h n
    have hrest := ih (fun b' hb' => h b' (List.mem_cons_of_mem _ hb'))
    rcases runLoop_cases benchF m nproc b rest n with
      ⟨_, e⟩ | ⟨hm, hs, _⟩ | ⟨hm, hs, _, _, _⟩ | ⟨_, t1, t2, _, _, e⟩
    · rw [e]
      exact hrest n
    · obtain ⟨t, ht⟩ := (h b (List.mem_cons_self _ _) hm n).1
      rw [ht] at hs
      exact absurd rfl hs
    · obtain ⟨t, ht⟩ := (h b (List.mem_cons_self _ _) hm (n + 1)).2
      rw [ht] at hs
      exact absurd rfl hs
    · rw [e]
      exact hrest (n + 2)

theorem resolveNproc_eq (c p : Int) : resolveNproc c p = if c > 0 then c else p := by
  unfold resolveNproc
  by_cases h1 : c < 0
  · have h2 : ¬ (c > 0) := by omega
    simp [h1, h2]
  · by_cases h3 : c = 0
    · subst h3
      simp
    · have h2 : c > 0 := by omega
      simp [h1, h2, h3]

theorem resolveNproc_pos (c p : Int) (hp : 1 ≤ p) : 1 ≤ resolveNproc c p := by
  rw [resolveNproc_eq]
  split_ifs with h
  · omega
  · exact hp

/-- The run of `main` over a registry is the run of its loop when the CPU
profile starts and the pattern compiles. -/
theorem mainWith_eq_runLoop (registry : List Workload) (env : Env) (flags : Flags)
    (hc : env.regexp.compiles flags.run = true) (hprof : ProfileStarts env flags) :
    mainWith registry env flags =
      runLoop (fun n init nThreads => bench flags.duration (env.sched n) init nThreads)
        (env.regexp.matchString flags.run)
        (resolveNproc flags.nproc env.gomaxprocs) registry 0 := by
  unfold mainWith
  have h1 : ¬ (flags.cpuprofile ≠ "" ∧ env.profileStarts flags.cpuprofile = false) := by
    rintro ⟨hne, hf⟩
    rcases hprof with e | e
    · exact hne e
    · rw [e] at hf
      cases hf
  rw [if_neg h1, if_neg (by simp [hc])]

/-- The run of `main` over a registry ends normally when the pattern compiles,
the CPU profile starts, there is at least one processing unit, no selected
workload fails and the clock advances. -/
theorem mainWith_status_ok (registry : List Workload) (env : Env) (flags : Flags)
    (hc : env.regexp.compiles flags.run = true) (hprof : ProfileStarts env flags)
    (hp : 1 ≤ env.gomaxprocs) (hnf : NoFailure registry env flags)
    (hclock : ClockAdvances env flags) :
    (mainWith registry env flags).status = Status.ok := by
  rw [mainWith_eq_runLoop registry env flags hc hprof]
  apply runLoop_status_ok
  intro b hb hm n
  have hpos := resolveNproc_pos flags.nproc env.gomaxprocs hp
  exact ⟨bench_returns flags.duration (env.sched n) b.benc 1 (by omega)
      (fun i _ => hnf b hb hm i) (fun i _ => hclock n i),
    bench_returns flags.duration (env.sched n) b.benc _ (by omega)
      (fun i _ => hnf b hb hm i) (fun i _ => hclock n i)⟩

theorem BenchmarkMatch_noFailure (rx : Regexp) (re : String)
    (hc : rx.compiles re = true) (hm : rx.matchBytes re (specStream 262144) = false) (i : Nat) :
    ∃ op, BenchmarkMatch rx re i = some op ∧ ∀ k, op k = false := by
  refine ⟨fun _ => rx.matchBytes re (specStream 262144), ?_, fun _ => hm⟩
  unfold BenchmarkMatch
  rw [if_pos hc, benchText_eq]

/-- In `goBenchmarks` no workload fails when the six patterns of the
`regexp.Match` workloads compile and do not match the text. -/
theorem goBenchmarks_noFailure (env : Env) (flags : Flags)
    (hrx : ∀ re ∈ [easyRE, easyREi, easyRE2, mediumRE, hardRE, hardRE2],
      env.regexp.compiles re = true ∧
        env.regexp.matchBytes re (specStream 262144) = false) :
    NoFailure (goBenchmarks env flags.duration) env flags := by
  intro b hb _ i
  have hplain : ∃ op, plainInit i = some op ∧ ∀ k, op k = false :=
    ⟨fun _ => false, rfl, fun _ => rfl⟩
  have hre : ∀ re ∈ [easyRE, easyREi, easyRE2, mediumRE, hardRE, hardRE2],
      ∃ op, BenchmarkMatch env.regexp re i = some op ∧ ∀ k, op k = false :=
    fun re hmem => BenchmarkMatch_noFailure env.regexp re (hrx re hmem).1 (hrx re hmem).2 i
  simp only [goBenchmarks, List.mem_cons, List.mem_singleton, List.not_mem_nil, or_false]
    at hb
  rcases hb with e | e | e | e | e | e | e | e | e | e | e | e | e | e | e | e | e | e <;>
    subst e <;> first
      | exact hplain
      | exact hre _ (by simp)

theorem benchArgs_records (nproc : Int) :
    ∀ (sel : List Workload) (totals : List (Int × Int)), totals.length = sel.length →
      benchArgs (List.zipWith (record nproc) sel totals).flatten
        = (List.replicate sel.length [1, nproc]).flatten := by
  intro sel
  induction sel with
  | nil => intro totals _; simp [benchArgs]
  | cons b sel ih =>
    intro totals hlen
    cases totals with
    | nil => simp at hlen
    | cons t totals =>
      simp only [List.zipWith_cons_cons, List.flatten_cons, benchArgs_append,
        List.length_cons, List.replicate_succ]
      rw [ih totals (by simpa using hlen)]
      rfl

theorem mainWith_benchArgs (registry : List Workload) (env : Env) (flags : Flags) :
    benchArgs (mainWith registry env flags).events
      <+: (List.replicate registry.length
            [1, resolveNproc flags.nproc env.gomaxprocs]).flatten := by
  unfold mainWith
  split_ifs
  · exact List.nil_prefix
  · exact List.nil_prefix
  · exact benchArgs_prefix _ _ _ _ _

/-! ### The sample environment -/

theorem sample_run_ok : (main sampleEnv sampleFlags).status = Status.ok := by
  decide

theorem sample_noFailure :
    NoFailure (goBenchmarks sampleEnv sampleFlags.duration) sampleEnv sampleFlags :=
  goBenchmarks_noFailure sampleEnv sampleFlags (by decide)

theorem sample_clockAdvances : ClockAdvances sampleEnv sampleFlags := by
  intro n i
  refine ⟨3, (by show 3 < 10; decide), ?_⟩
  have hD : benchDuration sampleFlags.duration = 10000000000 := by decide
  rw [hD]
  simp only [sampleEnv, sampleSched]
  have hi : (0 : Int) ≤ (i : Int) := Int.ofNat_nonneg i
  push_cast
  omega

/-! ### The lines and the calls of a run -/

/-- C2 as amended: when the filter pattern compiles, the CPU profile (if one
is asked for) starts, there is at least one processing unit, no selected
workload has a setup call that panics or an operation that takes its fatal
branch, and the clock passes the end of every measurement window, `main` ends
normally and the names on the lines it prints are exactly the names of
`goBenchmarks` that match the pattern, in registration order; there is one
line per name; the names are a sub-sequence of the registered names and none
appears twice; a pattern that matches no name gives no line, a pattern that
matches every name gives the 18 registered names, one line each. -/
theorem main_prints_selected_names (env : Env) (flags : Flags)
    (hc : env.regexp.compiles flags.run = true)
    (hprof : ProfileStarts env flags)
    (hp : 1 ≤ env.gomaxprocs)
    (hnf : NoFailure (goBenchmarks env flags.duration) env flags)
    (hclock : ClockAdvances env flags) :
    (main env flags).status = Status.ok ∧
    printedNames (main env flags).events
      = ((goBenchmarks env flags.duration).filter
          (fun b => env.regexp.matchString flags.run b.name)).map Workload.name ∧
    (printed (main env flags).events).length
      = (printedNames (main env flags).events).length ∧
    (printedNames (main env flags).events).Sublist
      ((goBenchmarks env flags.duration).map Workload.name) ∧
    (printedNames (main env flags).events).Nodup ∧
    ((∀ b ∈ goBenchmarks env flags.duration,
        env.regexp.matchString flags.run b.name = false) →
      printed (main env flags).events = []) ∧
    ((∀ b ∈ goBenchmarks env flags.duration,
        env.regexp.matchString flags.run b.name = true) →
      printedNames (main env flags).events
        = (goBenchmarks env flags.duration).map Workload.name ∧
      (printed (main env flags).events).length = 18) := by
  have hok : (main env flags).status = Status.ok :=
    mainWith_status_ok (goBenchmarks env flags.duration) env flags hc hprof hp hnf hclock
  refine ⟨hok, ?_⟩
  have hrun := mainWith_eq_runLoop (goBenchmarks env flags.duration) env flags hc hprof
  have hok' := hok
  unfold main at hok' ⊢
  rw [hrun] at hok' ⊢
  obtain ⟨totals, hlen, hev, _⟩ := runLoop_ok _ _ _ _ _ hok'
  have hnames := printedNames_records (resolveNproc flags.nproc env.gomaxprocs)
    (selected (env.regexp.matchString flags.run) (goBenchmarks env flags.duration))
    totals hlen
  rw [← hev] at hnames
  have hsel : selected (env.regexp.matchString flags.run) (goBenchmarks env flags.duration)
      = (goBenchmarks env flags.duration).filter
          (fun b => env.regexp.matchString flags.run b.name) := rfl
  rw [hsel] at hnames
  have hsub : (printedNames (runLoop
      (fun n init nThreads => bench flags.duration (env.sched n) init nThreads)
      (env.regexp.matchString flags.run) (resolveNproc flags.nproc env.gomaxprocs)
      (goBenchmarks env flags.duration) 0).events).Sublist
      ((goBenchmarks env flags.duration).map Workload.name) := by
    rw [hnames]
    exact (List.filter_sublist _).map _
  refine ⟨hnames, printed_length _, hsub, hsub.nodup (goBenchmarks_nodup env flags.duration),
    ?_, ?_⟩
  · intro hnone
    have hl := printed_length (runLoop
      (fun n init nThreads => bench flags.duration (env.sched n) init nThreads)
      (env.regexp.matchString flags.run) (resolveNproc flags.nproc env.gomaxprocs)
      (goBenchmarks env flags.duration) 0).events
    rw [hnames] at hl
    have hf : (goBenchmarks env flags.duration).filter
        (fun b => env.regexp.matchString flags.run b.name) = [] := by
      rw [List.filter_eq_nil_iff]
      intro b hb
      simp [hnone b hb]
    rw [hf] at hl
    exact List.length_eq_zero.1 hl
  · intro hall
    have hf : (goBenchmarks env flags.duration).filter
        (fun b => env.regexp.matchString flags.run b.name)
        = goBenchmarks env flags.duration := by
      rw [List.filter_eq_self]
      intro b hb
      simp [hall b hb]
    rw [hf] at hnames
    refine ⟨hnames, ?_⟩
    rw [printed_length, hnames, List.length_map, goBenchmarks_length]

theorem main_prints_selected_names_witness :
    (sampleEnv.regexp.compiles sampleFlags.run = true ∧
      ProfileStarts sampleEnv sampleFlags ∧ 1 ≤ sampleEnv.gomaxprocs ∧
      NoFailure (goBenchmarks sampleEnv sampleFlags.duration) sampleEnv sampleFlags ∧
      ClockAdvances sampleEnv sampleFlags) ∧
    (main sampleEnv sampleFlags).status = Status.ok ∧
    printedNames (main sampleEnv sampleFlags).events
      = ["ECDSA-P256 Sign", "ECDSA-P256 Verify", "html.EscapeString"] :=
  ⟨⟨by decide, Or.inl rfl, by decide, sample_noFailure, sample_clockAdvances⟩,
    (main_prints_selected_names sampleEnv sampleFlags (by decide) (Or.inl rfl) (by decide)
      sample_noFailure sample_clockAdvances).1,
    (main_prints_selected_names sampleEnv sampleFlags (by decide) (Or.inl rfl) (by decide)
      sample_noFailure sample_clockAdvances).2.1.trans (by decide)⟩

/-- C2 fails as stated.  With `-cpuprofile /nonexistent/cpu.prof` and a
profile that cannot be created, the pattern `^E|^html.E` compiles and three
registered names match it, but `main` ends in `log.Fatal` before the loop and
prints no line.  With a `regexp` package for which the patterns of the
`regexp.Match` workloads match the text, every pattern compiles and all 18
names match, but the first operation ends the process and no line is
printed. -/
theorem main_prints_nothing_without_profile :
    (noProfileEnv.regexp.compiles profileFlags.run = true ∧
      ((goBenchmarks noProfileEnv profileFlags.duration).filter
          (fun b => noProfileEnv.regexp.matchString profileFlags.run b.name)).map
          Workload.name
        = ["ECDSA-P256 Sign", "ECDSA-P256 Verify", "html.EscapeString"] ∧
      (main noProfileEnv profileFlags).status = Status.fatal ∧
      printedNames (main noProfileEnv profileFlags).events = [] ∧
      printed (main noProfileEnv profileFlags).events = []) ∧
    (matchAllEnv.regexp.compiles sampleFlags.run = true ∧
      (((goBenchmarks matchAllEnv sampleFlags.duration).filter
          (fun b => matchAllEnv.regexp.matchString sampleFlags.run b.name)).map
          Workload.name).length = 18 ∧
      (main matchAllEnv sampleFlags).status = Status.fatal ∧
      printedNames (main matchAllEnv sampleFlags).events = []) := by
  decide

/-- C3 as amended: when the filter pattern compiles, the CPU profile (if one
is asked for) starts, there is at least one processing unit, no selected
workload has a setup call that panics or an operation that takes its fatal
branch, and the clock passes the end of every measurement window, `main` ends
normally and its events are, for each selected workload in order, a call of
`bench` with the workload's setup function and parallelism 1, a call of
`bench` with the same setup function and the configured parallelism, and one
`Printf` of the workload's name, its report of the total the first call
returned and its report of the total the second call returned; nothing else
happens. -/
theorem main_runs_bench_twice (env : Env) (flags : Flags)
    (hc : env.regexp.compiles flags.run = true)
    (hprof : ProfileStarts env flags)
    (hp : 1 ≤ env.gomaxprocs)
    (hnf : NoFailure (goBenchmarks env flags.duration) env flags)
    (hclock : ClockAdvances env flags) :
    (main env flags).status = Status.ok ∧
    ∃ totals : List (Int × Int),
      totals.length
        = (selected (env.regexp.matchString flags.run)
            (goBenchmarks env flags.duration)).length ∧
      (main env flags).events
        = (List.zipWith
            (fun (b : Workload) (t : Int × Int) =>
              [Event.bench b.benc 1 (Outcome.ret t.1),
               Event.bench b.benc (resolveNproc flags.nproc env.gomaxprocs) (Outcome.ret t.2),
               Event.printf b.name (b.report t.1) (b.report t.2)])
            (selected (env.regexp.matchString flags.run) (goBenchmarks env flags.duration))
            totals).flatten ∧
      ∀ (j : Nat) (b : Workload) (t : Int × Int),
        (selected (env.regexp.matchString flags.run)
          (goBenchmarks env flags.duration))[j]? = some b →
        totals[j]? = some t →
        bench flags.duration (env.sched (2 * j)) b.benc 1 = Outcome.ret t.1 ∧
        bench flags.duration (env.sched (2 * j + 1)) b.benc
          (resolveNproc flags.nproc env.gomaxprocs) = Outcome.ret t.2 := by
  have hok : (main env flags).status = Status.ok :=
    mainWith_status_ok (goBenchmarks env flags.duration) env flags hc hprof hp hnf hclock
  refine ⟨hok, ?_⟩
  have hrun := mainWith_eq_runLoop (goBenchmarks env flags.duration) env flags hc hprof
  have hok' := hok
  unfold main at hok' ⊢
  rw [hrun] at hok' ⊢
  obtain ⟨totals, hlen, hev, hidx⟩ := runLoop_ok _ _ _ _ _ hok'
  refine ⟨totals, hlen, hev, ?_⟩
  intro j b t hb ht
  have := hidx j b t hb ht
  simpa using this

theorem main_runs_bench_twice_witness :
    (sampleEnv.regexp.compiles sampleFlags.run = true ∧
      ProfileStarts sampleEnv sampleFlags ∧ 1 ≤ sampleEnv.gomaxprocs ∧
      NoFailure (goBenchmarks sampleEnv sampleFlags.duration) sampleEnv sampleFlags ∧
      ClockAdvances sampleEnv sampleFlags) ∧
    (main sampleEnv sampleFlags).status = Status.ok ∧
    ∃ totals : List (Int × Int),
      totals.length
        = (selected (sampleEnv.regexp.matchString sampleFlags.run)
            (goBenchmarks sampleEnv sampleFlags.duration)).length ∧
      (main sampleEnv sampleFlags).events
        = (List.zipWith
            (fun (b : Workload) (t : Int × Int) =>
              [Event.bench b.benc 1 (Outcome.ret t.1),
               Event.bench b.benc (resolveNproc sampleFlags.nproc sampleEnv.gomaxprocs)
                 (Outcome.ret t.2),
               Event.printf b.name (b.report t.1) (b.report t.2)])
            (selected (sampleEnv.regexp.matchString sampleFlags.run)
              (goBenchmarks sampleEnv sampleFlags.duration))
            totals).flatten ∧
      ∀ (j : Nat) (b : Workload) (t : Int × Int),
        (selected (sampleEnv.regexp.matchString sampleFlags.run)
          (goBenchmarks sampleEnv sampleFlags.duration))[j]? = some b →
        totals[j]? = some t →
        bench sampleFlags.duration (sampleEnv.sched (2 * j)) b.benc 1 = Outcome.ret t.1 ∧
        bench sampleFlags.duration (sampleEnv.sched (2 * j + 1)) b.benc
          (resolveNproc sampleFlags.nproc sampleEnv.gomaxprocs) = Outcome.ret t.2 :=
  ⟨⟨by decide, Or.inl rfl, by decide, sample_noFailure, sample_clockAdvances⟩,
    main_runs_bench_twice sampleEnv sampleFlags (by decide) (Or.inl rfl) (by decide)
      sample_noFailure sample_clockAdvances⟩

/-- C3 fails as stated.  With `-cpuprofile /nonexistent/cpu.prof` and a
profile that cannot be created, three registered workloads are selected by
the pattern `^E|^html.E`, but `main` ends in `log.Fatal` before the loop and
calls `bench` for none of them.  In the registry `noop`, `regexp.Match easy`,
`noop` with an operation of the second workload that fails its self-check,
all three are selected, `bench` is called twice for the first, once for the
second and never for the third, and only the first gets its record. -/
theorem main_calls_no_bench_without_profile :
    (noProfileEnv.regexp.compiles profileFlags.run = true ∧
      (selected (noProfileEnv.regexp.matchString profileFlags.run)
          (goBenchmarks noProfileEnv profileFlags.duration)).map Workload.name
        = ["ECDSA-P256 Sign", "ECDSA-P256 Verify", "html.EscapeString"] ∧
      (main noProfileEnv profileFlags).status = Status.fatal ∧
      benchArgs (main noProfileEnv profileFlags).events = []) ∧
    ((selected (matchAllEnv.regexp.matchString sampleFlags.run)
          [noopWorkload, failingWorkload, noopWorkload]).map Workload.name
        = ["noop", "regexp.Match easy", "noop"] ∧
      benchArgs (mainWith [noopWorkload, failingWorkload, noopWorkload] matchAllEnv
          sampleFlags).events = [1, 2, 1] ∧
      printedNames (mainWith [noopWorkload, failingWorkload, noopWorkload] matchAllEnv
          sampleFlags).events = ["noop"]) := by
  decide

/-- C5: for every value `c` of the flag `-c` and every number `p >= 1`
returned by `runtime.GOMAXPROCS(0)`, the parallelism `main` works with is `c`
when `c > 0` and `p` otherwise, and it is at least 1.  In every run the
`nThreads` arguments of the calls of `bench` are alternately 1 and that
parallelism (an initial part of 18 repetitions of the pair), so no call of
`bench` gets a parallelism of 0.  When the pattern compiles, the CPU profile
starts, no selected workload fails and the clock advances, the run ends
normally and the arguments are exactly the pair 1, parallelism once for each
selected workload. -/
theorem main_parallelism (env : Env) (flags : Flags) (hp : 1 ≤ env.gomaxprocs) :
    resolveNproc flags.nproc env.gomaxprocs
      = (if flags.nproc > 0 then flags.nproc else env.gomaxprocs) ∧
    1 ≤ resolveNproc flags.nproc env.gomaxprocs ∧
    benchArgs (main env flags).events
      <+: (List.replicate 18 [1, resolveNproc flags.nproc env.gomaxprocs]).flatten ∧
    (∀ n ∈ benchArgs (main env flags).events, 1 ≤ n ∧ n ≠ 0) ∧
    (env.regexp.compiles flags.run = true → ProfileStarts env flags →
      NoFailure (goBenchmarks env flags.duration) env flags → ClockAdvances env flags →
      (main env flags).status = Status.ok ∧
      benchArgs (main env flags).events
        = (List.replicate
            (selected (env.regexp.matchString flags.run)
              (goBenchmarks env flags.duration)).length
            [1, resolveNproc flags.nproc env.gomaxprocs]).flatten) := by
  have heq := resolveNproc_eq flags.nproc env.gomaxprocs
  have hge := resolveNproc_pos flags.nproc env.gomaxprocs hp
  have hpre : benchArgs (main env flags).events
      <+: (List.replicate 18 [1, resolveNproc flags.nproc env.gomaxprocs]).flatten := by
    have := mainWith_benchArgs (goBenchmarks env flags.duration) env flags
    rw [goBenchmarks_length] at this
    exact this
  refine ⟨heq, hge, hpre, ?_, ?_⟩
  · intro n hn
    have hmem := hpre.subset hn
    rw [List.mem_flatten] at hmem
    obtain ⟨l, hl, hnl⟩ := hmem
    rw [List.eq_of_mem_replicate hl] at hnl
    simp only [List.mem_cons, List.mem_singleton, List.not_mem_nil, or_false] at hnl
    rcases hnl with e | e
    · subst e
      exact ⟨le_refl _, by decide⟩
    · subst e
      exact ⟨hge, by omega⟩
  · intro hc hprof hnf hclock
    have hok : (main env flags).status = Status.ok :=
      mainWith_status_ok (goBenchmarks env flags.duration) env flags hc hprof hp hnf hclock
    refine ⟨hok, ?_⟩
    have hrun := mainWith_eq_runLoop (goBenchmarks env flags.duration) env flags hc hprof
    have hok' := hok
    unfold main at hok' ⊢
    rw [hrun] at hok' ⊢
    obtain ⟨totals, hlen, hev, _⟩ := runLoop_ok _ _ _ _ _ hok'
    rw [hev]
    exact benchArgs_records _ _ _ hlen

theorem main_parallelism_witness :
    (1 ≤ sampleEnv.gomaxprocs) ∧
    resolveNproc sampleFlags.nproc sampleEnv.gomaxprocs = 2 ∧
    (main sampleEnv sampleFlags).status = Status.ok ∧
    benchArgs (main sampleEnv sampleFlags).events = [1, 2, 1, 2, 1, 2] :=
  ⟨by decide,
    (main_parallelism sampleEnv sampleFlags (by decide)).1.trans (by decide),
    ((main_parallelism sampleEnv sampleFlags (by decide)).2.2.2.2 (by decide) (Or.inl rfl)
      sample_noFailure sample_clockAdvances).1,
    ((main_parallelism sampleEnv sampleFlags (by decide)).2.2.2.2 (by decide) (Or.inl rfl)
      sample_noFailure sample_clockAdvances).2.trans (by decide)⟩

end GoBenchmarks
